import Mathlib

/-!
Shallow embedding of the collocation core of `CHL_PFT_Data_Processing.py`
(repository `CMEMS_Data_Analysis`), together with theorems checking the
natural-language specification of that core.

Modelling conventions:
* Python floats are modelled exactly by `ℚ`; `np.nan` (the "no data"
  marker) and any non-finite or failed read are modelled by `none` in
  `Option ℚ`, so a stored cell is `Option ℚ` (`some` = finite value).
* A raised Python exception is modelled by `Except.error` carrying the
  exception class name.
* A NetCDF dataset is modelled by `Dataset`: the `lat`/`lon` coordinate
  axes are `Option (List ℚ)` (`none` models a file whose dataset lacks
  that coordinate, so `ds["lat"]` raises `KeyError`), the time axis is a
  list of time values (empty = no time dimension), and data variables
  are an association list from names to index-addressable arrays.
* File-system interaction (directory listing, `xr.open_dataset`) is
  passed in as data: the listing of the year directory as a list of file
  names, and an opening oracle `String → Option Dataset` / a per-day
  resolution oracle `ℚ → Option Dataset` (`none` = no file found or no
  candidate openable, which the script treats identically).
-/

namespace CMEMS

/-- Python's `%` on floats for the divisors used here (`a % b` with
`b > 0`): the remainder with the sign of the divisor, `a - b*⌊a/b⌋`. -/
def pymod (a b : ℚ) : ℚ := a - b * (⌊a / b⌋ : ℤ)

/-- `lon_to_180` (line 76): `((lon + 180.0) % 360.0) - 180.0`. -/
def lon_to_180 (lon : ℚ) : ℚ := pymod (lon + 180) 360 - 180

/-- `lon_to_360` (line 80): `lon % 360.0`. -/
def lon_to_360 (lon : ℚ) : ℚ := pymod lon 360

/-- `np.nanmin` on a 1-D array without NaNs (value at `[]` irrelevant:
the script raises before using it on an empty axis). -/
def listMin : List ℚ → ℚ
  | [] => 0
  | x :: xs => xs.foldl min x

/-- `np.nanmax` on a 1-D array without NaNs. -/
def listMax : List ℚ → ℚ
  | [] => 0
  | x :: xs => xs.foldl max x

/-- `adapt_query_lon` (lines 84-89): if dataset longitudes are 0..360,
convert the query to 0..360; else to -180..180. -/
def adapt_query_lon (lonVals : List ℚ) (qlon : ℚ) : ℚ :=
  if 0 ≤ listMin lonVals ∧ 180 < listMax lonVals then lon_to_360 qlon
  else lon_to_180 qlon

/-- `np.searchsorted(arr, value)` (side `left`) on a monotonically
non-decreasing array: the leftmost insertion index.  The script only
calls it after checking `np.all(np.diff(arr) >= 0)`. -/
def searchsorted (arr : List ℚ) (value : ℚ) : ℕ :=
  match arr with
  | [] => 0
  | x :: xs => if x < value then searchsorted xs value + 1 else 0

/-- `np.argmin` on a 1-D array: first index attaining the minimum. -/
def argminIdx : List ℚ → ℕ
  | [] => 0
  | x :: xs => if xs.all (fun y => decide (x ≤ y)) then 0 else argminIdx xs + 1

/-- `np.argmin(np.abs(arr - value))`: the linear-scan nearest search. -/
def argminAbs (arr : List ℚ) (value : ℚ) : ℕ :=
  argminIdx (arr.map (fun a => |a - value|))

/-- `np.all(np.diff(arr) >= 0)` (line 95): every consecutive difference
is non-negative. -/
def isNonDecreasing : List ℚ → Bool
  | [] => true
  | [_] => true
  | x :: y :: rest => decide (x ≤ y) && isNonDecreasing (y :: rest)

/-- `nearest_index` (lines 92-104): fast binary-search path on a
monotonically non-decreasing 1-D array, linear `argmin` fallback
otherwise.  (The `try/except` wrapper is dead in this model: no modelled
operation in the fast path raises.) -/
def nearest_index (arr : List ℚ) (value : ℚ) : ℕ :=
  if isNonDecreasing arr then
    let i := searchsorted arr value
    if i = 0 then 0
    else if arr.length ≤ i then arr.length - 1
    else if |arr.getD i 0 - value| < |arr.getD (i - 1) 0 - value| then i
    else i - 1
  else argminAbs arr value

/-- One data variable of a dataset: whether its dims include `time`, and
its array, read at `(ilat, ilon, optional itime)`.  A read returning
`none` models `da.isel(...).item()` raising or producing a non-finite
value (both stored as `np.nan`, lines 171-175). -/
structure VarData where
  hasTimeDim : Bool
  read : ℕ → ℕ → Option ℕ → Option ℚ

/-- An opened raster dataset (see module conventions above). -/
structure Dataset where
  latAxis : Option (List ℚ)
  lonAxis : Option (List ℚ)
  timeAxis : List ℚ
  vars : List (String × VarData)

/-- `v in ds.data_vars`. -/
def dsHasVar (ds : Dataset) (v : String) : Bool :=
  (ds.vars.lookup v).isSome

/-- One input sample: calendar date (day precision, as a rational day
number: the `Year`/`Month`/`Day` integer columns give day-precision
dates by construction, lines 301-308), latitude, longitude. -/
structure Row where
  date : ℚ
  lat : ℚ
  lon : ℚ
deriving DecidableEq

/-- `compute_time_index` (lines 107-121): `none` if no time dimension,
`0` if a single step, else `np.argmin(np.abs(tvals - when))`. -/
def compute_time_index (ds : Dataset) (d : ℚ) : Option ℕ :=
  if ds.timeAxis.length = 0 then none
  else if ds.timeAxis.length = 1 then some 0
  else some (argminIdx (ds.timeAxis.map (fun t => |t - d|)))

/-- Lines 145-157 of `process_one_day`: adapt the query longitude, find
nearest indices, compute the tolerance differences, and decide
acceptance (`dlat > tol_deg or dlon > tol_deg` rejects). -/
def gridMatch (latVals lonVals : List ℚ) (lat lon tol : ℚ) : ℕ × ℕ × Bool :=
  let qlon := adapt_query_lon lonVals lon
  let ilat := nearest_index latVals lat
  let ilon := nearest_index lonVals qlon
  let dlat := |latVals.getD ilat 0 - lat|
  let dlon := |pymod ((lonVals.getD ilon 0 - qlon) + 180) 360 - 180|
  (ilat, ilon, !(decide (dlat > tol) || decide (dlon > tol)))

/-- Lines 163-175: extract one requested variable at a resolved cell.
Absent variable → `np.nan`; the time index is passed iff the variable
has a `time` dim and a time index was resolved. -/
def extractVar (ds : Dataset) (v : String) (ilat ilon : ℕ) (tIdx : Option ℕ) :
    Option ℚ :=
  match ds.vars.lookup v with
  | none => none
  | some da => da.read ilat ilon (if da.hasTimeDim then tIdx else none)

/-- Lines 142-177, one loop iteration: the per-sample result, an entry
for every requested variable.  `np.nanmin` of an empty longitude axis
raises `ValueError` (line 145 via 86); `lat_vals[ilat]` on an empty
latitude axis raises `IndexError` (line 151). -/
def process_row (ds : Dataset) (latVals lonVals : List ℚ) (tIdx : Option ℕ)
    (varNames : List String) (tol : ℚ) (r : Row) :
    Except String (List (String × Option ℚ)) :=
  if lonVals.isEmpty then Except.error "ValueError"
  else if latVals.isEmpty then Except.error "IndexError"
  else
    match gridMatch latVals lonVals r.lat r.lon tol with
    | (ilat, ilon, accepted) =>
      if accepted then
        Except.ok (varNames.map (fun v => (v, extractVar ds v ilat ilon tIdx)))
      else
        Except.ok (varNames.map (fun v => (v, none)))

/-- The `for ridx, r in rows.iterrows()` loop of `process_one_day`: an
exception in any iteration aborts the whole call (partial results are
discarded, as in Python). -/
def processRows (ds : Dataset) (latVals lonVals : List ℚ) (tIdx : Option ℕ)
    (varNames : List String) (tol : ℚ) :
    List (ℕ × Row) → Except String (List (ℕ × List (String × Option ℚ)))
  | [] => Except.ok []
  | (i, r) :: rest =>
    match process_row ds latVals lonVals tIdx varNames tol r with
    | Except.error e => Except.error e
    | Except.ok vals =>
      match processRows ds latVals lonVals tIdx varNames tol rest with
      | Except.error e => Except.error e
      | Except.ok res => Except.ok ((i, vals) :: res)

/-- `process_one_day` (lines 124-179).  `ds[LAT_NAME]` / `ds[LON_NAME]`
raise `KeyError` when the coordinate is absent (lines 136-137);
`rows.iloc[0]` raises `IndexError` on an empty group (line 140); the
time index is computed once, from the first row's date. -/
def process_one_day (ds : Dataset) (rows : List (ℕ × Row))
    (varNames : List String) (tol : ℚ) :
    Except String (List (ℕ × List (String × Option ℚ))) :=
  match ds.latAxis, ds.lonAxis with
  | some latVals, some lonVals =>
    match rows with
    | [] => Except.error "IndexError"
    | (_, r0) :: _ =>
      processRows ds latVals lonVals (compute_time_index ds r0.date)
        varNames tol rows
  | _, _ => Except.error "KeyError"

/-! ### File resolution (`file_candidates_for_date`, lines 61-73, and the
open loop of `main`, lines 333-339 / 363-368). -/

/-- Lexicographic comparison of code-point sequences: exactly how
Python's `sorted` compares strings. -/
def charListLe : List Char → List Char → Bool
  | [], _ => true
  | _ :: _, [] => false
  | c :: cs, d :: ds =>
    if c.toNat < d.toNat then true
    else if d.toNat < c.toNat then false
    else charListLe cs ds

/-- Python string `<=` (code-point lexicographic order). -/
def pyStrLe (a b : String) : Bool := charListLe a.data b.data

/-- Bool test: `seg` occurs as a contiguous segment of `l`. -/
def containsSeg (seg : List Char) : List Char → Bool
  | [] => seg.isEmpty
  | c :: cs => seg.isPrefixOf (c :: cs) || containsSeg seg cs

/-- Glob pattern `{ymd}_*.nc` (line 66): `*` may be empty, so the name
is `ymd ++ "_" ++ anything ++ ".nc"`. -/
def pat1 (ymd name : String) : Bool :=
  (ymd.data ++ ['_']).isPrefixOf name.data
    && (List.isPrefixOf ".nc".data.reverse name.data.reverse)
    && decide (ymd.length + 4 ≤ name.length)

/-- Glob pattern `*{ymd}*.nc` (line 67).  A leading `*` in `glob` does
not match names starting with a dot (hidden files). -/
def pat2 (ymd name : String) : Bool :=
  !(decide (name.data.head? = some '.'))
    && (List.isPrefixOf ".nc".data.reverse name.data.reverse)
    && containsSeg ymd.data (name.data.take (name.length - 3))

/-- Glob pattern `{ymd}.nc` (line 68). -/
def pat3 (ymd name : String) : Bool :=
  decide (name = ymd ++ ".nc")

/-- `file_candidates_for_date` (lines 61-73) applied to the listing
`names` of the year directory: collect matches of the three patterns,
then `sorted(set(files))` — deduplicate and sort lexicographically by
name (all paths share the `base_dir/<year>/` prefix, so sorting full
paths and sorting names agree). -/
def file_candidates_for_date (names : List String) (ymd : String) :
    List String :=
  List.insertionSort (fun a b => pyStrLe a b = true)
    ((names.filter (pat1 ymd) ++ names.filter (pat2 ymd)
        ++ names.filter (pat3 ymd)).dedup)

/-- Lines 333-339: try the candidates in order, keep the first that
opens without error (`none` from the oracle = `xr.open_dataset`
raised). -/
def firstOpenable (cands : List String) (openOracle : String → Option Dataset) :
    Option Dataset :=
  match cands with
  | [] => none
  | p :: rest =>
    match openOracle p with
    | some ds => some ds
    | none => firstOpenable rest openOracle

/-! ### The main driver (`main`, lines 271-402): output-table model,
per-group processing, merge, and the open/close event trace. -/

/-- `DEFAULT_PLANKTON_VARS` (lines 26-32). -/
def DEFAULT_PLANKTON_VARS : List String :=
  ["CHL", "CHL_uncertainty", "flags",
    "DIATO", "DINO", "HAPTO", "GREEN", "PROKAR", "PROCHLO", "MICRO", "NANO",
    "PICO",
    "DIATO_uncertainty", "DINO_uncertainty", "HAPTO_uncertainty",
    "GREEN_uncertainty", "PROKAR_uncertainty", "PROCHLO_uncertainty",
    "MICRO_uncertainty", "NANO_uncertainty", "PICO_uncertainty"]

/-- `DEFAULT_OPTICS_VARS` (lines 34-36). -/
def DEFAULT_OPTICS_VARS : List String :=
  ["BBP", "BBP_uncertainty", "flags", "CDM", "CDM_uncertainty"]

/-- `RENAME_OUT.get((product, v), v)` (lines 39-42, 318, 377). -/
def rename_out (product v : String) : String :=
  if product = "optics" ∧ v = "flags" then "flags_optics" else v

/-- One output record: an association list column-name ↦ cell.  A cell
is `some q` (finite value) or `none` (`np.nan`, the "no data" marker). -/
abbrev OutRow := List (String × Option ℚ)

/-- The output table, one record per input sample, in input order. -/
abbrev Table := List OutRow

/-- `df[v] = np.nan` guarded by `if v not in df.columns` (314, 319):
add the column with the no-data marker only when absent. -/
def insertIfAbsent (r : OutRow) (k : String) : OutRow :=
  if (r.lookup k).isSome then r else r ++ [(k, none)]

/-- Lines 310-320: prepare the output columns for BOTH products (the
optics columns are created even when no optics directory is given). -/
def initRow (pv ov : List String) : OutRow :=
  ov.foldl (fun r v => insertIfAbsent r (rename_out "optics" v))
    (pv.foldl (fun r v => insertIfAbsent r v) [])

/-- `df.at[ridx, c] = val` on a row: replace the binding, or append it
when the column does not exist yet. -/
def setCol (r : OutRow) (k : String) (val : Option ℚ) : OutRow :=
  match r with
  | [] => [(k, val)]
  | (k0, v0) :: rest =>
    if k0 = k then (k0, val) :: rest else (k0, v0) :: setCol rest k val

/-- `df.at[ridx, c] = val` on the table (out-of-range row: no-op; the
script only writes indices of existing rows). -/
def setTable (t : Table) (i : ℕ) (k : String) (val : Option ℚ) : Table :=
  t.set i (setCol (t.getD i []) k val)

/-- Row `i`'s cell under column `c` (`none` = column absent). -/
def rowLookup (t : Table) (i : ℕ) (c : String) : Option (Option ℚ) :=
  (t.getD i []).lookup c

/-- The inner loop of lines 346-348 / 375-378: write one sample's
day-results into its row, iterating the FULL requested variable list
with `values.get(v, np.nan)` (a variable missing from the day's results
gets the no-data marker), under the product's output names. -/
def mergeRow (t : Table) (i : ℕ) (vals : List (String × Option ℚ))
    (varNames : List String) (rn : String → String) : Table :=
  varNames.foldl (fun acc v => setTable acc i (rn v) ((vals.lookup v).getD none)) t

/-- Lines 346-348 / 375-378: write one day's results back into the
output table, sample by sample. -/
def mergeProduct (t : Table) (results : List (ℕ × List (String × Option ℚ)))
    (varNames : List String) (rn : String → String) : Table :=
  results.foldl (fun acc pr => mergeRow acc pr.1 pr.2 varNames rn) t

/-- Trace events: a day-group starts; a dataset is opened / closed for a
product on a day. -/
inductive Event where
  | beginGroup : ℚ → Event
  | openData : String → ℚ → Event
  | closeData : String → ℚ → Event
deriving DecidableEq

/-- The rows of one day-group: original indices kept, original order
kept (pandas `groupby` preserves within-group order). -/
def groupRows (samples : List Row) (d : ℚ) : List (ℕ × Row) :=
  samples.enum.filter (fun p => decide (p.2.date = d))

/-- One product's block for one day-group (lines 330-356 / 358-386):
nothing on unavailability; on an opened dataset, extract the present
variables, merge under the product's names, then close.  An exception
from `process_one_day` propagates and skips both merge and close. -/
def processProduct (product : String) (d : ℚ) (rows : List (ℕ × Row))
    (varNames : List String) (tol : ℚ) (rds : Option Dataset) (t : Table) :
    List Event × Except String Table :=
  match rds with
  | none => ([], Except.ok t)
  | some ds =>
    match process_one_day ds rows (varNames.filter (fun v => dsHasVar ds v)) tol with
    | Except.error e => ([Event.openData product d], Except.error e)
    | Except.ok res =>
      ([Event.openData product d, Event.closeData product d],
        Except.ok (mergeProduct t res varNames (rename_out product)))

/-- One iteration of the `for gi, (day, rows) in enumerate(grouped)`
loop (lines 327-388): the plankton block, then — only when an optics
base directory was given — the optics block.  An exception in the
plankton block propagates immediately and the optics block never
runs. -/
def runStep (pv ov : List String) (tol : ℚ) (samples : List Row)
    (fP : ℚ → Option Dataset) (fO : Option (ℚ → Option Dataset))
    (d : ℚ) (t : Table) : List Event × Except String Table :=
  match processProduct "plankton" d (groupRows samples d) pv tol (fP d) t with
  | (ev1, Except.error e) => (ev1, Except.error e)
  | (ev1, Except.ok t1) =>
    match fO with
    | none => (ev1, Except.ok t1)
    | some f =>
      match processProduct "optics" d (groupRows samples d) ov tol (f d) t1 with
      | (ev2, r2) => (ev1 ++ ev2, r2)

/-- The full day-group loop: process the day-groups in order; an
uncaught exception aborts the run with the trace so far. -/
def runGroups (pv ov : List String) (tol : ℚ) (samples : List Row)
    (fP : ℚ → Option Dataset) (fO : Option (ℚ → Option Dataset)) :
    List ℚ → Table → List Event × Except String Table
  | [], t => ([], Except.ok t)
  | d :: dl, t =>
    match runStep pv ov tol samples fP fO d t with
    | (ev, Except.error e) => (Event.beginGroup d :: ev, Except.error e)
    | (ev, Except.ok t1) =>
      match runGroups pv ov tol samples fP fO dl t1 with
      | (evs, res) => (Event.beginGroup d :: (ev ++ evs), res)

/-- The distinct sample dates in ascending order
(`df.groupby("_date", sort=True)`, line 323). -/
def sortedDates (samples : List Row) : List ℚ :=
  List.insertionSort (· ≤ ·) ((samples.map Row.date).dedup)

/-- The collocation core of `main` (lines 310-391): initialise the
output columns, then process every day-group against both products.
`fP`/`fO` give, per day, the opened dataset of the plankton / optics
product, or `none` when no candidate file exists or none opens
(`fO = none` models no `--optics-base-dir`).  Returns the event trace
and either the finished table or the uncaught exception. -/
def runMain (pv ov : List String) (tol : ℚ) (samples : List Row)
    (fP : ℚ → Option Dataset) (fO : Option (ℚ → Option Dataset)) :
    List Event × Except String Table :=
  runGroups pv ov tol samples fP fO (sortedDates samples)
    (samples.map (fun _ => initRow pv ov))

/-- Trace well-formedness: scanning left to right with the number of
currently open datasets, every day-group must begin with none open, a
close must match the single open handle and, when `requireEnd` is set,
the trace must end with every handle closed. -/
def balancedTrace (requireEnd : Bool) : ℕ → List Event → Bool
  | n, [] => !requireEnd || n == 0
  | n, Event.beginGroup _ :: es => n == 0 && balancedTrace requireEnd 0 es
  | n, Event.openData _ _ :: es => balancedTrace requireEnd (n + 1) es
  | n, Event.closeData _ _ :: es => n == 1 && balancedTrace requireEnd (n - 1) es

/-- Axes usable by `process_one_day` without raising: both coordinates
present and non-empty. -/
def goodDS (ds : Dataset) : Prop :=
  (∃ lv, ds.latAxis = some lv ∧ lv ≠ []) ∧
    (∃ lv, ds.lonAxis = some lv ∧ lv ≠ [])

end CMEMS

/-! ## Theorems -/

namespace CMEMS

lemma isNonDecreasing_iff_chain (arr : List ℚ) :
    isNonDecreasing arr = true ↔ List.Chain' (· ≤ ·) arr := by
  induction arr with
  | nil => simp [isNonDecreasing]
  | cons x xs ih =>
    cases xs with
    | nil => simp [isNonDecreasing]
    | cons y rest =>
      rw [List.chain'_cons, ← ih]
      simp [isNonDecreasing]

lemma searchsorted_le_length (arr : List ℚ) (v : ℚ) :
    searchsorted arr v ≤ arr.length := by
  induction arr with
  | nil => simp [searchsorted]
  | cons x xs ih =>
    by_cases h : x < v
    · simp only [searchsorted, if_pos h, List.length_cons]
      omega
    · simp [searchsorted, h]

lemma searchsorted_getD_lt (arr : List ℚ) (v : ℚ) :
    ∀ j, j < searchsorted arr v → arr.getD j 0 < v := by
  induction arr with
  | nil => intro j hj; simp [searchsorted] at hj
  | cons x xs ih =>
    intro j hj
    by_cases h : x < v
    · cases j with
      | zero => simpa using h
      | succ j' =>
        simp only [searchsorted, if_pos h] at hj
        simpa using ih j' (by omega)
    · simp [searchsorted, h] at hj

lemma searchsorted_getD_not_lt (arr : List ℚ) (v : ℚ)
    (h : searchsorted arr v < arr.length) :
    ¬ arr.getD (searchsorted arr v) 0 < v := by
  induction arr with
  | nil => simp [searchsorted] at h
  | cons x xs ih =>
    by_cases hx : x < v
    · simp only [searchsorted, if_pos hx] at h ⊢
      simpa using ih (by simpa using h)
    · simp only [searchsorted, if_neg hx] at h ⊢
      simpa using hx

lemma chainLt_getD_lt {arr : List ℚ} (hc : List.Chain' (· < ·) arr)
    {j k : ℕ} (hjk : j < k) (hk : k < arr.length) :
    arr.getD j 0 < arr.getD k 0 := by
  have hp : arr.Pairwise (· < ·) := List.chain'_iff_pairwise.mp hc
  have hj : j < arr.length := lt_trans hjk hk
  rw [List.getD_eq_getElem arr 0 hj, List.getD_eq_getElem arr 0 hk]
  exact List.pairwise_iff_getElem.mp hp j k hj hk hjk

lemma chainLt_getD_le {arr : List ℚ} (hc : List.Chain' (· < ·) arr)
    {j k : ℕ} (hjk : j ≤ k) (hk : k < arr.length) :
    arr.getD j 0 ≤ arr.getD k 0 := by
  rcases eq_or_lt_of_le hjk with h | h
  · rw [h]
  · exact le_of_lt (chainLt_getD_lt hc h hk)

lemma argminIdx_lt_length {l : List ℚ} (h : l ≠ []) : argminIdx l < l.length := by
  induction l with
  | nil => cases h rfl
  | cons x xs ih =>
    by_cases hall : (xs.all fun y => decide (x ≤ y)) = true
    · simp [argminIdx, hall]
    · have hxs : xs ≠ [] := by
        intro he; subst he; simp at hall
      have := ih hxs
      simp only [argminIdx, hall, if_false, Bool.false_eq_true, List.length_cons]
      omega

lemma exists_lt_of_all_false {x : ℚ} {xs : List ℚ}
    (hall : ¬ (xs.all fun y => decide (x ≤ y)) = true) :
    ∃ k, k < xs.length ∧ xs.getD k 0 < x := by
  simp only [List.all_eq_true, decide_eq_true_eq, not_forall] at hall
  obtain ⟨y, hy, hxy⟩ := hall
  obtain ⟨k, hk, hky⟩ := List.mem_iff_getElem.mp hy
  refine ⟨k, hk, ?_⟩
  rw [List.getD_eq_getElem xs 0 hk, hky]
  exact lt_of_not_le hxy

lemma argminIdx_min (l : List ℚ) :
    ∀ k, k < l.length → l.getD (argminIdx l) 0 ≤ l.getD k 0 := by
  induction l with
  | nil => intro k hk; simp at hk
  | cons x xs ih =>
    intro k hk
    by_cases hall : (xs.all fun y => decide (x ≤ y)) = true
    · simp only [argminIdx, hall, if_true, List.getD_cons_zero]
      cases k with
      | zero => simp
      | succ k' =>
        have hk' : k' < xs.length := by simpa using hk
        have hx : x ≤ xs.getD k' 0 := by
          have hmem : xs.getD k' 0 ∈ xs := by
            rw [List.getD_eq_getElem xs 0 hk']
            exact List.getElem_mem hk'
          simpa using List.all_eq_true.mp hall _ hmem
        simpa using hx
    · have hA := argminIdx_lt_length (l := xs)
      simp only [argminIdx, hall, if_false, Bool.false_eq_true, List.getD_cons_succ]
      obtain ⟨ky, hky, hylt⟩ := exists_lt_of_all_false hall
      have hxs : xs ≠ [] := by
        intro he; subst he; simp at hky
      cases k with
      | zero =>
        have h1 : xs.getD (argminIdx xs) 0 ≤ xs.getD ky 0 := ih ky hky
        simp only [List.getD_cons_zero]
        exact le_of_lt (lt_of_le_of_lt h1 hylt)
      | succ k' =>
        have hk' : k' < xs.length := by simpa using hk
        simpa using ih k' hk'

lemma argminIdx_first (l : List ℚ) :
    ∀ k, k < argminIdx l → l.getD (argminIdx l) 0 < l.getD k 0 := by
  induction l with
  | nil => intro k hk; simp [argminIdx] at hk
  | cons x xs ih =>
    intro k hk
    by_cases hall : (xs.all fun y => decide (x ≤ y)) = true
    · simp [argminIdx, hall] at hk
    · simp only [argminIdx, hall, if_false, Bool.false_eq_true] at hk ⊢
      obtain ⟨ky, hky, hylt⟩ := exists_lt_of_all_false hall
      cases k with
      | zero =>
        have h1 : xs.getD (argminIdx xs) 0 ≤ xs.getD ky 0 := argminIdx_min xs ky hky
        simp only [List.getD_cons_succ, List.getD_cons_zero]
        exact lt_of_le_of_lt h1 hylt
      | succ k' =>
        have hk' : k' < argminIdx xs := by omega
        simpa using ih k' hk'

lemma argminIdx_eq_of (l : List ℚ) (j : ℕ) (hj : j < l.length)
    (hmin : ∀ k, k < l.length → l.getD j 0 ≤ l.getD k 0)
    (hfirst : ∀ k, k < j → l.getD j 0 < l.getD k 0) :
    argminIdx l = j := by
  have hne : l ≠ [] := by
    intro he; subst he; simp at hj
  rcases lt_trichotomy (argminIdx l) j with h | h | h
  · exact absurd (argminIdx_min l j hj) (not_le.mpr (hfirst _ h))
  · exact h
  · exact absurd (hmin _ (argminIdx_lt_length hne)) (not_le.mpr (argminIdx_first l j h))

lemma getD_map_abs (arr : List ℚ) (v : ℚ) (k : ℕ) (hk : k < arr.length) :
    (arr.map (fun a => |a - v|)).getD k 0 = |arr.getD k 0 - v| := by
  have hk' : k < (arr.map (fun a => |a - v|)).length := by simpa using hk
  rw [List.getD_eq_getElem _ 0 hk', List.getD_eq_getElem arr 0 hk]
  simp

lemma argminAbs_eq_of (arr : List ℚ) (v : ℚ) (j : ℕ) (hj : j < arr.length)
    (hmin : ∀ k, k < arr.length → |arr.getD j 0 - v| ≤ |arr.getD k 0 - v|)
    (hfirst : ∀ k, k < j → |arr.getD j 0 - v| < |arr.getD k 0 - v|) :
    argminAbs arr v = j := by
  unfold argminAbs
  apply argminIdx_eq_of
  · simpa using hj
  · intro k hk
    have hk' : k < arr.length := by simpa using hk
    rw [getD_map_abs arr v k hk', getD_map_abs arr v j hj]
    exact hmin k hk'
  · intro k hk
    rw [getD_map_abs arr v k (lt_trans hk hj), getD_map_abs arr v j hj]
    exact hfirst k hk

lemma argminAbs_lt_length {arr : List ℚ} (v : ℚ) (h : arr ≠ []) :
    argminAbs arr v < arr.length := by
  unfold argminAbs
  have : arr.map (fun a => |a - v|) ≠ [] := by simpa using h
  simpa using argminIdx_lt_length this

/-- C4 counterexample: on the monotonically non-decreasing axis `[1, 1]`
with query `2`, the binary-search fast path of `nearest_index` returns
index `1` (the upper clamp `arr.size - 1`), while the brute-force linear
scan `np.argmin(np.abs(arr - value))` returns the lower tied index `0`:
the two paths are NOT identical on all monotonic inputs. -/
theorem nearest_index_fast_ne_linear_on_ties :
    List.Chain' (· ≤ ·) [(1 : ℚ), 1] ∧
      nearest_index [(1 : ℚ), 1] 2 = 1 ∧ argminAbs [(1 : ℚ), 1] 2 = 0 := by
  refine ⟨?_, by decide, ?_⟩
  · rw [← isNonDecreasing_iff_chain]
    decide
  · have h : |(1 : ℚ) - 2| = 1 := by norm_num
    simp [argminAbs, argminIdx, h]

/-- C4 (amended): on a STRICTLY increasing 1-D axis the binary-search
fast path of `nearest_index` returns exactly the index the brute-force
linear scan returns (minimum absolute difference, ties to the lower
index); on merely non-decreasing axes the two can differ at duplicated
axis values. -/
theorem nearest_index_eq_argmin_of_strict_mono (arr : List ℚ) (v : ℚ)
    (hs : List.Chain' (· < ·) arr) :
    nearest_index arr v = argminAbs arr v := by
  have hle : List.Chain' (· ≤ ·) arr := hs.imp (fun _ _ h => le_of_lt h)
  have hmono : isNonDecreasing arr = true := (isNonDecreasing_iff_chain arr).mpr hle
  unfold nearest_index
  rw [if_pos hmono]
  simp only []
  by_cases h0 : searchsorted arr v = 0
  · rw [if_pos h0]
    rcases List.eq_nil_or_concat arr with hnil | _
    · subst hnil; simp [argminAbs, argminIdx]
    · rcases arr with _ | ⟨x, xs⟩
      · simp [argminAbs, argminIdx]
      · have hlen : 0 < (x :: xs).length := by simp
        have hcur : ¬ (x :: xs).getD 0 0 < v := by
          have := searchsorted_getD_not_lt (x :: xs) v (h0 ▸ hlen)
          rwa [h0] at this
        have hvle : v ≤ (x :: xs).getD 0 0 := not_lt.mp hcur
        symm
        apply argminAbs_eq_of _ _ 0 hlen
        · intro k hk
          have h0k : (x :: xs).getD 0 0 ≤ (x :: xs).getD k 0 :=
            chainLt_getD_le hs (Nat.zero_le k) hk
          rw [abs_of_nonneg (by linarith), abs_of_nonneg (by linarith)]
          linarith
        · intro k hk; omega
  · by_cases h1 : arr.length ≤ searchsorted arr v
    · rw [if_neg h0, if_pos h1]
      have hne : arr ≠ [] := by
        intro he; subst he; simp [searchsorted] at h0
      have hlen : 0 < arr.length := List.length_pos.mpr hne
      have hall : ∀ k, k < arr.length → arr.getD k 0 < v := by
        intro k hk
        exact searchsorted_getD_lt arr v k (lt_of_lt_of_le hk h1)
      symm
      apply argminAbs_eq_of _ _ (arr.length - 1) (by omega)
      · intro k hk
        have hklast : arr.getD k 0 ≤ arr.getD (arr.length - 1) 0 :=
          chainLt_getD_le hs (by omega) (by omega)
        have h2 := hall k hk
        have h3 := hall (arr.length - 1) (by omega)
        rw [abs_of_nonpos (by linarith), abs_of_nonpos (by linarith)]
        linarith
      · intro k hk
        have hklast : arr.getD k 0 < arr.getD (arr.length - 1) 0 :=
          chainLt_getD_lt hs (by omega) (by omega)
        have h2 := hall k (by omega)
        have h3 := hall (arr.length - 1) (by omega)
        rw [abs_of_nonpos (by linarith), abs_of_nonpos (by linarith)]
        linarith
    · rw [if_neg h0, if_neg h1]
      have hi1 : searchsorted arr v < arr.length := not_le.mp h1
      have hi0 : 0 < searchsorted arr v := Nat.pos_of_ne_zero h0
      have hprev : arr.getD (searchsorted arr v - 1) 0 < v :=
        searchsorted_getD_lt arr v _ (by omega)
      have hcur : v ≤ arr.getD (searchsorted arr v) 0 :=
        not_lt.mp (searchsorted_getD_not_lt arr v hi1)
      by_cases hc : |arr.getD (searchsorted arr v) 0 - v| <
          |arr.getD (searchsorted arr v - 1) 0 - v|
      · rw [if_pos hc]
        rw [abs_of_nonneg (by linarith), abs_of_nonpos (by linarith),
          neg_sub] at hc
        symm
        apply argminAbs_eq_of _ _ (searchsorted arr v) hi1
        · intro k hk
          rcases lt_or_ge k (searchsorted arr v) with hk2 | hk2
          · have hkv : arr.getD k 0 < v := searchsorted_getD_lt arr v k hk2
            have hkprev : arr.getD k 0 ≤ arr.getD (searchsorted arr v - 1) 0 :=
              chainLt_getD_le hs (by omega) (by omega)
            rw [abs_of_nonneg (by linarith), abs_of_nonpos (by linarith)]
            linarith
          · have hkcur : arr.getD (searchsorted arr v) 0 ≤ arr.getD k 0 :=
              chainLt_getD_le hs hk2 hk
            rw [abs_of_nonneg (by linarith), abs_of_nonneg (by linarith)]
            linarith
        · intro k hk
          have hkv : arr.getD k 0 < v := searchsorted_getD_lt arr v k hk
          have hkprev : arr.getD k 0 ≤ arr.getD (searchsorted arr v - 1) 0 :=
            chainLt_getD_le hs (by omega) (by omega)
          rw [abs_of_nonneg (by linarith), abs_of_nonpos (by linarith)]
          linarith
      · rw [if_neg hc]
        rw [not_lt, abs_of_nonpos (by linarith), abs_of_nonneg (by linarith),
          neg_sub] at hc
        symm
        apply argminAbs_eq_of _ _ (searchsorted arr v - 1) (by omega)
        · intro k hk
          rcases lt_or_ge k (searchsorted arr v) with hk2 | hk2
          · have hkv : arr.getD k 0 < v := searchsorted_getD_lt arr v k hk2
            have hkprev : arr.getD k 0 ≤ arr.getD (searchsorted arr v - 1) 0 :=
              chainLt_getD_le hs (by omega) (by omega)
            rw [abs_of_nonpos (by linarith), abs_of_nonpos (by linarith)]
            linarith
          · have hkcur : arr.getD (searchsorted arr v) 0 ≤ arr.getD k 0 :=
              chainLt_getD_le hs hk2 hk
            rw [abs_of_nonpos (by linarith), abs_of_nonneg (by linarith)]
            linarith
        · intro k hk
          have hkprev : arr.getD k 0 < arr.getD (searchsorted arr v - 1) 0 :=
            chainLt_getD_lt hs (by omega) (by omega)
          have hkv : arr.getD k 0 < v := searchsorted_getD_lt arr v k (by omega)
          rw [abs_of_nonpos (by linarith), abs_of_nonpos (by linarith)]
          linarith

/-- Witness for the amended C4 theorem at the strictly increasing axis
`[0, 10]` with query `7`. -/
theorem nearest_index_eq_argmin_witness :
    List.Chain' (· < ·) [(0 : ℚ), 10] ∧
      nearest_index [(0 : ℚ), 10] 7 = argminAbs [(0 : ℚ), 10] 7 :=
  ⟨by norm_num [List.chain'_cons],
    nearest_index_eq_argmin_of_strict_mono [(0 : ℚ), 10] 7
      (by norm_num [List.chain'_cons])⟩

lemma searchsorted_eq_length_of_all_lt (arr : List ℚ) (v : ℚ)
    (h : ∀ a ∈ arr, a < v) : searchsorted arr v = arr.length := by
  induction arr with
  | nil => simp [searchsorted]
  | cons x xs ih =>
    have hx : x < v := h x (List.mem_cons_self x xs)
    simp only [searchsorted, if_pos hx, List.length_cons]
    rw [ih (fun a ha => h a (List.mem_cons_of_mem x ha))]

lemma searchsorted_eq_zero_of_all_gt (arr : List ℚ) (v : ℚ)
    (h : ∀ a ∈ arr, v < a) : searchsorted arr v = 0 := by
  cases arr with
  | nil => simp [searchsorted]
  | cons x xs =>
    have hx : v < x := h x (List.mem_cons_self x xs)
    simp [searchsorted, not_lt.mpr (le_of_lt hx)]

/-- C10: for every non-empty 1-D axis and every query, `nearest_index`
is total and returns an index within `[0, length - 1]`; on a
monotonically non-decreasing axis, a query below every axis value
resolves to boundary index `0` and a query above every axis value to
boundary index `length - 1`, so far-away queries are excluded only by
the later tolerance gate, never by an indexing failure. -/
theorem nearest_index_total_inbounds_clamp (arr : List ℚ) (v : ℚ)
    (h : arr ≠ []) :
    nearest_index arr v < arr.length ∧
      (List.Chain' (· ≤ ·) arr →
        ((∀ a ∈ arr, v < a) → nearest_index arr v = 0) ∧
        ((∀ a ∈ arr, a < v) → nearest_index arr v = arr.length - 1)) := by
  have hlen : 0 < arr.length := List.length_pos.mpr h
  constructor
  · by_cases hm : isNonDecreasing arr = true
    · unfold nearest_index
      rw [if_pos hm]
      simp only []
      by_cases h0 : searchsorted arr v = 0
      · rw [if_pos h0]; exact hlen
      · by_cases h1 : arr.length ≤ searchsorted arr v
        · rw [if_neg h0, if_pos h1]; omega
        · rw [if_neg h0, if_neg h1]
          split
          · omega
          · omega
    · unfold nearest_index
      rw [if_neg hm]
      exact argminAbs_lt_length v h
  · intro hc
    have hm : isNonDecreasing arr = true := (isNonDecreasing_iff_chain arr).mpr hc
    constructor
    · intro hbelow
      unfold nearest_index
      rw [if_pos hm]
      simp [searchsorted_eq_zero_of_all_gt arr v hbelow]
    · intro habove
      unfold nearest_index
      rw [if_pos hm]
      have he : searchsorted arr v = arr.length :=
        searchsorted_eq_length_of_all_lt arr v habove
      simp only [he]
      rw [if_neg (by omega), if_pos (le_refl _)]

/-- Witness for `nearest_index_total_inbounds_clamp` on the axis
`[0, 10]` with the out-of-extent query `20`. -/
theorem nearest_index_total_inbounds_clamp_witness :
    nearest_index [(0 : ℚ), 10] 20 < 2 ∧
      nearest_index [(0 : ℚ), 10] 20 = 2 - 1 := by
  have hchain : List.Chain' (· ≤ ·) [(0 : ℚ), 10] := by
    rw [← isNonDecreasing_iff_chain]; decide
  exact ⟨(nearest_index_total_inbounds_clamp [(0 : ℚ), 10] 20 (by simp)).1,
    ((nearest_index_total_inbounds_clamp [(0 : ℚ), 10] 20 (by simp)).2
      hchain).2 (by decide)⟩

lemma le_foldl_min_iff (xs : List ℚ) (a c : ℚ) :
    c ≤ xs.foldl min a ↔ c ≤ a ∧ ∀ x ∈ xs, c ≤ x := by
  induction xs generalizing a with
  | nil => simp
  | cons y ys ih =>
    rw [List.foldl_cons, ih]
    simp only [le_min_iff, List.mem_cons]
    constructor
    · rintro ⟨⟨h1, h2⟩, h3⟩
      exact ⟨h1, fun x hx => hx.elim (fun he => he ▸ h2) (h3 x)⟩
    · rintro ⟨h1, h2⟩
      exact ⟨⟨h1, h2 y (Or.inl rfl)⟩, fun x hx => h2 x (Or.inr hx)⟩

lemma lt_foldl_max_iff (xs : List ℚ) (a c : ℚ) :
    c < xs.foldl max a ↔ c < a ∨ ∃ x ∈ xs, c < x := by
  induction xs generalizing a with
  | nil => simp
  | cons y ys ih =>
    rw [List.foldl_cons, ih]
    simp only [lt_max_iff, List.mem_cons]
    constructor
    · rintro (⟨h1 | h1⟩ | ⟨x, hx, h2⟩)
      · exact Or.inl h1
      · exact Or.inr ⟨y, Or.inl rfl, h1⟩
      · exact Or.inr ⟨x, Or.inr hx, h2⟩
    · rintro (h1 | ⟨x, hx1 | hx1, h2⟩)
      · exact Or.inl (Or.inl h1)
      · exact Or.inl (Or.inr (hx1 ▸ h2))
      · exact Or.inr ⟨x, hx1, h2⟩

lemma le_listMin_iff {l : List ℚ} (h : l ≠ []) (c : ℚ) :
    c ≤ listMin l ↔ ∀ x ∈ l, c ≤ x := by
  cases l with
  | nil => cases h rfl
  | cons x xs =>
    rw [listMin, le_foldl_min_iff]
    simp [List.forall_mem_cons]

lemma lt_listMax_iff {l : List ℚ} (h : l ≠ []) (c : ℚ) :
    c < listMax l ↔ ∃ x ∈ l, c < x := by
  cases l with
  | nil => cases h rfl
  | cons x xs =>
    rw [listMax, lt_foldl_max_iff]
    constructor
    · rintro (h1 | ⟨y, hy, h2⟩)
      · exact ⟨x, List.mem_cons_self x xs, h1⟩
      · exact ⟨y, List.mem_cons_of_mem x hy, h2⟩
    · rintro ⟨y, hy, h2⟩
      rcases List.mem_cons.mp hy with he | hm
      · exact Or.inl (he ▸ h2)
      · exact Or.inr ⟨y, hm, h2⟩

/-- C5: for every non-empty dataset longitude axis, if all axis values
are ≥ 0 and some axis value exceeds 180 the query longitude is mapped
into the unsigned 0..360 domain, otherwise into the signed -180..180
domain; and in the grid match this adaptation happens before the
nearest-index computation: the longitude index is
`nearest_index lonVals (adapt_query_lon lonVals q)`. -/
theorem adapt_query_lon_spec (lonVals latVals : List ℚ) (q lat tol : ℚ)
    (h : lonVals ≠ []) :
    ((∀ x ∈ lonVals, 0 ≤ x) → (∃ x ∈ lonVals, 180 < x) →
        adapt_query_lon lonVals q = lon_to_360 q) ∧
      (¬ ((∀ x ∈ lonVals, 0 ≤ x) ∧ ∃ x ∈ lonVals, 180 < x) →
        adapt_query_lon lonVals q = lon_to_180 q) ∧
      (gridMatch latVals lonVals lat q tol).2.1 =
        nearest_index lonVals (adapt_query_lon lonVals q) := by
  refine ⟨?_, ?_, rfl⟩
  · intro hall hex
    unfold adapt_query_lon
    rw [if_pos ⟨(le_listMin_iff h 0).mpr hall, (lt_listMax_iff h 180).mpr hex⟩]
  · intro hn
    unfold adapt_query_lon
    rw [if_neg]
    rw [le_listMin_iff h, lt_listMax_iff h]
    exact hn

/-- Witness for `adapt_query_lon_spec`: an axis spanning `[0, 359.75]`
with query `-170°` adapts to exactly `190°` (and the signed mapping
would give `-170°`). -/
theorem adapt_query_lon_spec_witness :
    adapt_query_lon [(0 : ℚ), 1439/4] (-170) = lon_to_360 (-170) ∧
      lon_to_360 (-170 : ℚ) = 190 ∧ lon_to_180 (-170 : ℚ) = -170 := by
  refine ⟨(adapt_query_lon_spec [(0 : ℚ), 1439/4] [] (-170) 0 0 (by simp)).1
      ?_ ?_, ?_, ?_⟩
  · intro x hx
    rcases List.mem_cons.mp hx with he | hm
    · rw [he]
    · simp at hm
      rw [hm]; norm_num
  · exact ⟨1439/4, by simp, by norm_num⟩
  · have hf : (⌊(-170 : ℚ)/360⌋ : ℤ) = -1 := by norm_num
    rw [lon_to_360, pymod, hf]
    norm_num
  · have hf : (⌊((-170 : ℚ) + 180)/360⌋ : ℤ) = 0 := by norm_num
    rw [lon_to_180, pymod, hf]
    norm_num

/-- C3: the grid match is accepted iff BOTH the absolute latitude
difference and the circular longitude difference (raw difference wrapped
by `((x + 180) % 360) - 180` before taking the absolute value) are ≤ the
tolerance — a difference exactly equal to the tolerance is accepted, any
strict excess rejects — and a rejected match makes `process_row` resolve
every requested variable to the no-data marker; the antimeridian pair
(axis value `-179.98`, adapted query `179.97`) yields a circular
difference of exactly `0.05`, not `359.95`. -/
theorem tolerance_gate_spec (ds : Dataset) (latVals lonVals : List ℚ)
    (tIdx : Option ℕ) (varNames : List String) (tol : ℚ) (r : Row)
    (hlat : latVals ≠ []) (hlon : lonVals ≠ []) :
    ((gridMatch latVals lonVals r.lat r.lon tol).2.2 = true ↔
      |latVals.getD (nearest_index latVals r.lat) 0 - r.lat| ≤ tol ∧
        |pymod ((lonVals.getD
            (nearest_index lonVals (adapt_query_lon lonVals r.lon)) 0
              - adapt_query_lon lonVals r.lon) + 180) 360 - 180| ≤ tol) ∧
      ((gridMatch latVals lonVals r.lat r.lon tol).2.2 = false →
        process_row ds latVals lonVals tIdx varNames tol r =
          Except.ok (varNames.map (fun v => (v, none)))) ∧
      |pymod ((((-8999 : ℚ)/50) - 17997/100) + 180) 360 - 180| = 1/20 := by
  refine ⟨?_, ?_, ?_⟩
  · show (!(decide _ || decide _)) = true ↔ _
    simp [not_lt]
  · intro hrej
    have hlon' : ¬ (lonVals.isEmpty = true) := by
      simpa [List.isEmpty_iff] using hlon
    have hlat' : ¬ (latVals.isEmpty = true) := by
      simpa [List.isEmpty_iff] using hlat
    rcases hgm : gridMatch latVals lonVals r.lat r.lon tol with ⟨ilat, ilon, acc⟩
    rw [hgm] at hrej
    simp only at hrej
    unfold process_row
    rw [if_neg hlon', if_neg hlat', hgm]
    simp [hrej]
  · have hf : (⌊(((((-8999 : ℚ)/50) - 17997/100) + 180))/360⌋ : ℤ) = -1 := by
      norm_num
    rw [pymod, hf]
    rw [abs_of_nonneg (by norm_num)]
    norm_num

/-- Witness for `tolerance_gate_spec`: the antimeridian wrap value,
obtained from the theorem instantiated at concrete axes. -/
theorem tolerance_gate_spec_witness :
    |pymod ((((-8999 : ℚ)/50) - 17997/100) + 180) 360 - 180| = 1/20 :=
  (tolerance_gate_spec ⟨none, none, [], []⟩ [10] [20] none [] (1/20)
    ⟨0, 10, 20⟩ (by simp) (by simp)).2.2

/-- C6: time-slice selection — length 0: no time index (indexing then
skips the time dimension); length 1: index 0 regardless of the axis
value; length > 1: the least index minimising the absolute difference
between the axis value and the sample's (day-precision) date; and
`process_one_day` computes this index once per day-group, from the
first row's date (all rows of a group share it). -/
theorem compute_time_index_spec (ds : Dataset) (d : ℚ) :
    (ds.timeAxis.length = 0 → compute_time_index ds d = none) ∧
      (ds.timeAxis.length = 1 → compute_time_index ds d = some 0) ∧
      (1 < ds.timeAxis.length →
        ∃ j, compute_time_index ds d = some j ∧ j < ds.timeAxis.length ∧
          (∀ k, k < ds.timeAxis.length →
            |ds.timeAxis.getD j 0 - d| ≤ |ds.timeAxis.getD k 0 - d|) ∧
          (∀ k, k < j →
            |ds.timeAxis.getD j 0 - d| < |ds.timeAxis.getD k 0 - d|)) ∧
      (∀ lv ov, ds.latAxis = some lv → ds.lonAxis = some ov →
        ∀ i0 r0 rest varNames tol,
          process_one_day ds ((i0, r0) :: rest) varNames tol =
            processRows ds lv ov (compute_time_index ds r0.date)
              varNames tol ((i0, r0) :: rest)) := by
  refine ⟨?_, ?_, ?_, ?_⟩
  · intro h
    unfold compute_time_index
    rw [if_pos h]
  · intro h
    unfold compute_time_index
    rw [if_neg (by omega), if_pos h]
  · intro h
    have hne : ds.timeAxis.map (fun t => |t - d|) ≠ [] := by
      intro he
      have h0 : (ds.timeAxis.map (fun t => |t - d|)).length = 0 := by
        rw [he]; rfl
      rw [List.length_map] at h0
      omega
    have hbound := argminIdx_lt_length hne
    rw [List.length_map] at hbound
    refine ⟨argminIdx (ds.timeAxis.map (fun t => |t - d|)), ?_, hbound, ?_, ?_⟩
    · have hn0 : ¬ (ds.timeAxis.length = 0) := by omega
      have hn1 : ¬ (ds.timeAxis.length = 1) := by omega
      unfold compute_time_index
      rw [if_neg hn0, if_neg hn1]
    · intro k hk
      have h1 := argminIdx_min (ds.timeAxis.map (fun t => |t - d|)) k
        (by simpa using hk)
      rwa [getD_map_abs _ _ _ hbound, getD_map_abs _ _ _ hk] at h1
    · intro k hk
      have h1 := argminIdx_first (ds.timeAxis.map (fun t => |t - d|)) k hk
      rwa [getD_map_abs _ _ _ hbound, getD_map_abs _ _ _ (lt_trans hk hbound)]
        at h1
  · intro lv ov hlv hov i0 r0 rest varNames tol
    simp only [process_one_day, hlv, hov]

/-- Witness for `compute_time_index_spec`: no time axis → none; single
step → index 0 regardless of value; day-offset axis `[0, 1, 2]` with
sample offsets `1.5` (exact tie, lower index) and `1.4` (nearest) →
index 1. -/
theorem compute_time_index_spec_witness :
    compute_time_index ⟨none, none, [], []⟩ 100 = none ∧
      compute_time_index ⟨none, none, [(5 : ℚ)], []⟩ 100 = some 0 ∧
      compute_time_index ⟨none, none, [(0 : ℚ), 1, 2], []⟩ (3/2) = some 1 ∧
      compute_time_index ⟨none, none, [(0 : ℚ), 1, 2], []⟩ (7/5) = some 1 :=
  ⟨(compute_time_index_spec _ _).1 (by simp),
    (compute_time_index_spec _ _).2.1 (by simp),
    by
      have h1 : |(0 : ℚ) - 3/2| = 3/2 := by
        rw [abs_of_nonpos (by norm_num)]; norm_num
      have h2 : |(1 : ℚ) - 3/2| = 1/2 := by
        rw [abs_of_nonpos (by norm_num)]; norm_num
      have h3 : |(2 : ℚ) - 3/2| = 1/2 := by
        rw [abs_of_nonneg (by norm_num)]; norm_num
      have a1 : |(1 : ℚ)/2| = 1/2 := by rw [abs_of_nonneg (by norm_num)]
      have a2 : |(3 : ℚ)/2| = 3/2 := by rw [abs_of_nonneg (by norm_num)]
      norm_num [compute_time_index, argminIdx, h1, h2, h3, a1, a2],
    by
      have h1 : |(0 : ℚ) - 7/5| = 7/5 := by
        rw [abs_of_nonpos (by norm_num)]; norm_num
      have h2 : |(1 : ℚ) - 7/5| = 2/5 := by
        rw [abs_of_nonpos (by norm_num)]; norm_num
      have h3 : |(2 : ℚ) - 7/5| = 3/5 := by
        rw [abs_of_nonneg (by norm_num)]; norm_num
      have a1 : |(7 : ℚ)/5| = 7/5 := by rw [abs_of_nonneg (by norm_num)]
      have a2 : |(2 : ℚ)/5| = 2/5 := by rw [abs_of_nonneg (by norm_num)]
      have a3 : |(3 : ℚ)/5| = 3/5 := by rw [abs_of_nonneg (by norm_num)]
      norm_num [compute_time_index, argminIdx, h1, h2, h3, a1, a2, a3]⟩

lemma firstOpenable_spec (cands : List String)
    (openOracle : String → Option Dataset) (ds : Dataset) :
    firstOpenable cands openOracle = some ds →
    ∃ k, k < cands.length ∧ openOracle (cands.getD k "") = some ds ∧
      ∀ j, j < k → openOracle (cands.getD j "") = none := by
  induction cands with
  | nil => intro h; simp [firstOpenable] at h
  | cons p rest ih =>
    intro h
    unfold firstOpenable at h
    rcases ho : openOracle p with _ | d
    · rw [ho] at h
      obtain ⟨k, hk, hk2, hk3⟩ := ih h
      refine ⟨k + 1, by simpa using hk, by simpa using hk2, ?_⟩
      intro j hj
      cases j with
      | zero => simpa using ho
      | succ j' => simpa using hk3 j' (by omega)
    · rw [ho] at h
      refine ⟨0, by simp, ?_, by omega⟩
      simp only [List.getD_cons_zero, ho]
      exact h

lemma charListLe_total (a : List Char) :
    ∀ b, charListLe a b = true ∨ charListLe b a = true := by
  induction a with
  | nil => intro b; left; simp [charListLe]
  | cons x xs ih =>
    intro b
    cases b with
    | nil => right; simp [charListLe]
    | cons y ys =>
      by_cases hxy : x.toNat < y.toNat
      · left; simp [charListLe, hxy]
      · by_cases hyx : y.toNat < x.toNat
        · right; simp [charListLe, hyx]
        · rcases ih ys with h | h
          · left; simp [charListLe, hxy, hyx, h]
          · right; simp [charListLe, hxy, hyx, h]

lemma charListLe_trans (a : List Char) :
    ∀ b c, charListLe a b = true → charListLe b c = true →
      charListLe a c = true := by
  induction a with
  | nil => intro b c _ _; simp [charListLe]
  | cons x xs ih =>
    intro b c h1 h2
    cases b with
    | nil => simp [charListLe] at h1
    | cons y ys =>
      cases c with
      | nil => simp [charListLe] at h2
      | cons z zs =>
        simp only [charListLe] at h1 h2 ⊢
        by_cases hxy : x.toNat < y.toNat
        · by_cases hyz : y.toNat < z.toNat
          · rw [if_pos (lt_trans hxy hyz)]
          · rw [if_neg hyz] at h2
            by_cases hzy : z.toNat < y.toNat
            · rw [if_pos hzy] at h2; exact absurd h2 (by simp)
            · rw [if_pos (by omega : x.toNat < z.toNat)]
        · rw [if_neg hxy] at h1
          by_cases hyx : y.toNat < x.toNat
          · rw [if_pos hyx] at h1; exact absurd h1 (by simp)
          · rw [if_neg hyx] at h1
            by_cases hyz : y.toNat < z.toNat
            · rw [if_pos (by omega : x.toNat < z.toNat)]
            · rw [if_neg hyz] at h2
              by_cases hzy : z.toNat < y.toNat
              · rw [if_pos hzy] at h2; exact absurd h2 (by simp)
              · rw [if_neg hzy] at h2
                rw [if_neg (by omega : ¬ x.toNat < z.toNat),
                  if_neg (by omega : ¬ z.toNat < x.toNat)]
                exact ih ys zs h1 h2

instance pyStrLeIsTotal : IsTotal String (fun a b => pyStrLe a b = true) :=
  ⟨fun a b => charListLe_total a.data b.data⟩

instance pyStrLeIsTrans : IsTrans String (fun a b => pyStrLe a b = true) :=
  ⟨fun a b c => charListLe_trans a.data b.data c.data⟩

/-- C7 counterexample: with the year-directory listing
`["!20200101x.nc", "20200101_a.nc"]`, the candidate list produced by
`sorted(set(...))` starts with `"!20200101x.nc"` — a file matched only
by the substring pattern — even though `"20200101_a.nc"` matches the
most specific (exact-prefix) pattern: the list (and hence the open
order) is NOT in pattern-priority order. -/
theorem file_candidates_not_priority_ordered :
    file_candidates_for_date ["!20200101x.nc", "20200101_a.nc"] "20200101"
        = ["!20200101x.nc", "20200101_a.nc"] ∧
      pat1 "20200101" "20200101_a.nc" = true ∧
      pat1 "20200101" "!20200101x.nc" = false ∧
      pat2 "20200101" "!20200101x.nc" = true := by
  refine ⟨?_, by decide, by decide, by decide⟩
  decide

/-- C7 (amended): the resolver's candidate list over a year-directory
listing contains exactly the names matching one of the three date glob
patterns (each requires the 8-digit `YYYYMMDD` and the `.nc` suffix),
deduplicated and ordered lexicographically by file name (Python
`sorted(set(...))`) — a fixed deterministic order, but by name, not by
pattern priority — and the dataset used is the first candidate in that
order that opens without error. -/
theorem file_candidates_spec (names : List String) (ymd : String)
    (openOracle : String → Option Dataset) :
    List.Sorted (fun a b => pyStrLe a b = true)
        (file_candidates_for_date names ymd) ∧
      (∀ n, n ∈ file_candidates_for_date names ymd ↔
        n ∈ names ∧ (pat1 ymd n || pat2 ymd n || pat3 ymd n) = true) ∧
      (∀ ds, firstOpenable (file_candidates_for_date names ymd) openOracle
          = some ds →
        ∃ k, k < (file_candidates_for_date names ymd).length ∧
          openOracle ((file_candidates_for_date names ymd).getD k "")
            = some ds ∧
          ∀ j, j < k →
            openOracle ((file_candidates_for_date names ymd).getD j "")
              = none) := by
  refine ⟨?_, ?_, ?_⟩
  · exact List.sorted_insertionSort _ _
  · intro n
    unfold file_candidates_for_date
    rw [(List.perm_insertionSort _ _).mem_iff, List.mem_dedup]
    simp only [List.mem_append, List.mem_filter, Bool.or_eq_true]
    tauto
  · intro ds h
    exact firstOpenable_spec _ _ _ h

/-- Witness for `file_candidates_spec` at a two-file listing: the open
loop picks the first (lexicographically least) candidate that opens. -/
theorem file_candidates_spec_witness :
    "20200101_a.nc" ∈
        file_candidates_for_date ["x.nc", "20200101_a.nc"] "20200101" ∧
      List.Sorted (fun a b => pyStrLe a b = true)
        (file_candidates_for_date ["x.nc", "20200101_a.nc"] "20200101") :=
  ⟨((file_candidates_spec ["x.nc", "20200101_a.nc"] "20200101"
      (fun _ => none)).2.1 "20200101_a.nc").mpr (by decide),
    (file_candidates_spec ["x.nc", "20200101_a.nc"] "20200101"
      (fun _ => none)).1⟩

lemma setCol_lookup_self (r : OutRow) (k : String) (val : Option ℚ) :
    (setCol r k val).lookup k = some val := by
  induction r with
  | nil => simp [setCol]
  | cons p rest ih =>
    rcases p with ⟨k0, v0⟩
    by_cases h : k0 = k
    · subst h
      simp [setCol]
    · have hb : (k == k0) = false := by
        simpa using Ne.symm h
      simp only [setCol, if_neg h, List.lookup_cons, hb]
      exact ih

lemma setCol_lookup_ne (r : OutRow) (k k2 : String) (val : Option ℚ)
    (h : k2 ≠ k) : (setCol r k val).lookup k2 = r.lookup k2 := by
  have hb : (k2 == k) = false := by simpa using h
  induction r with
  | nil => simp [setCol, List.lookup_cons, hb]
  | cons p rest ih =>
    rcases p with ⟨k0, v0⟩
    by_cases h0 : k0 = k
    · subst h0
      simp [setCol, List.lookup_cons, hb]
    · rcases hbk : (k2 == k0) with _ | _
      · simp only [setCol, if_neg h0, List.lookup_cons, hbk]
        exact ih
      · simp only [setCol, if_neg h0, List.lookup_cons, hbk]

lemma setCol_lookup_isSome (r : OutRow) (k c : String) (val : Option ℚ)
    (h : (r.lookup c).isSome = true) :
    ((setCol r k val).lookup c).isSome = true := by
  by_cases he : c = k
  · subst he
    rw [setCol_lookup_self]
    rfl
  · rw [setCol_lookup_ne r k c val he]
    exact h

lemma setTable_length (t : Table) (i : ℕ) (k : String) (val : Option ℚ) :
    (setTable t i k val).length = t.length := by
  simp [setTable]

lemma getD_set_self (t : Table) (i : ℕ) (x : OutRow) (h : i < t.length) :
    (t.set i x).getD i [] = x := by
  rw [List.getD_eq_getElem _ _ (by simpa using h)]
  exact List.getElem_set_self _

lemma getD_set_other (t : Table) (i j : ℕ) (x : OutRow) (h : j ≠ i) :
    (t.set i x).getD j [] = t.getD j [] := by
  by_cases hj : j < t.length
  · rw [List.getD_eq_getElem _ _ (by simpa using hj),
      List.getD_eq_getElem _ _ hj]
    exact List.getElem_set_ne (Ne.symm h) _
  · rw [List.getD_eq_default _ _ (by simpa using not_lt.mp hj),
      List.getD_eq_default _ _ (not_lt.mp hj)]

lemma rowLookup_setTable_self (t : Table) (i : ℕ) (k : String)
    (val : Option ℚ) (h : i < t.length) :
    rowLookup (setTable t i k val) i k = some val := by
  unfold rowLookup setTable
  rw [getD_set_self t i _ h]
  exact setCol_lookup_self _ k val

lemma rowLookup_setTable_other (t : Table) (i j : ℕ) (k c : String)
    (val : Option ℚ) (h : j ≠ i ∨ c ≠ k) :
    rowLookup (setTable t i k val) j c = rowLookup t j c := by
  unfold rowLookup setTable
  by_cases hj : j = i
  · subst hj
    rcases h with h | h
    · cases h rfl
    · by_cases hlen : j < t.length
      · rw [getD_set_self t j _ hlen]
        exact setCol_lookup_ne _ k c val h
      · rw [List.set_eq_of_length_le (not_lt.mp hlen)]
  · rw [getD_set_other t i j _ hj]

lemma rowLookup_setTable_isSome (t : Table) (i j : ℕ) (k c : String)
    (val : Option ℚ) (h : (rowLookup t j c).isSome = true) :
    (rowLookup (setTable t i k val) j c).isSome = true := by
  by_cases hj : j = i
  · subst hj
    by_cases hc : c = k
    · subst hc
      by_cases hlen : j < t.length
      · rw [rowLookup_setTable_self t j c val hlen]; rfl
      · unfold rowLookup setTable
        rw [List.set_eq_of_length_le (not_lt.mp hlen)]
        exact h
    · rw [rowLookup_setTable_other t j j k c val (Or.inr hc)]
      exact h
  · rw [rowLookup_setTable_other t i j k c val (Or.inl hj)]
    exact h

lemma mergeRow_length (i : ℕ) (vals : List (String × Option ℚ))
    (rn : String → String) :
    ∀ (varNames : List String) (t : Table),
      (mergeRow t i vals varNames rn).length = t.length := by
  intro varNames
  induction varNames with
  | nil => intro t; rfl
  | cons v vs ih =>
    intro t
    unfold mergeRow
    rw [List.foldl_cons]
    have h1 := ih (setTable t i (rn v) ((vals.lookup v).getD none))
    unfold mergeRow at h1
    rw [h1, setTable_length]

lemma mergeProduct_length (varNames : List String) (rn : String → String) :
    ∀ (results : List (ℕ × List (String × Option ℚ))) (t : Table),
      (mergeProduct t results varNames rn).length = t.length := by
  intro results
  induction results with
  | nil => intro t; rfl
  | cons p ps ih =>
    intro t
    unfold mergeProduct
    rw [List.foldl_cons]
    have h1 := ih (mergeRow t p.1 p.2 varNames rn)
    unfold mergeProduct at h1
    rw [h1, mergeRow_length]

lemma rowLookup_mergeRow_other_col (i j : ℕ)
    (vals : List (String × Option ℚ)) (rn : String → String) (c : String) :
    ∀ (varNames : List String) (t : Table), (∀ v ∈ varNames, rn v ≠ c) →
      rowLookup (mergeRow t i vals varNames rn) j c = rowLookup t j c := by
  intro varNames
  induction varNames with
  | nil => intro t _; rfl
  | cons v vs ih =>
    intro t h
    unfold mergeRow
    rw [List.foldl_cons]
    have h1 := ih (setTable t i (rn v) ((vals.lookup v).getD none))
      (fun w hw => h w (List.mem_cons_of_mem v hw))
    unfold mergeRow at h1
    rw [h1, rowLookup_setTable_other _ _ _ _ _ _
      (Or.inr (Ne.symm (h v (List.mem_cons_self v vs))))]

lemma rowLookup_mergeRow_other_row (i j : ℕ)
    (vals : List (String × Option ℚ)) (rn : String → String) (c : String)
    (h : j ≠ i) :
    ∀ (varNames : List String) (t : Table),
      rowLookup (mergeRow t i vals varNames rn) j c = rowLookup t j c := by
  intro varNames
  induction varNames with
  | nil => intro t; rfl
  | cons v vs ih =>
    intro t
    unfold mergeRow
    rw [List.foldl_cons]
    have h1 := ih (setTable t i (rn v) ((vals.lookup v).getD none))
    unfold mergeRow at h1
    rw [h1, rowLookup_setTable_other _ _ _ _ _ _ (Or.inl h)]

lemma rowLookup_mergeRow_hit (i : ℕ) (vals : List (String × Option ℚ))
    (rn : String → String) (v : String) :
    ∀ (varNames : List String) (t : Table), v ∈ varNames →
      (∀ w ∈ varNames, rn w = rn v → w = v) → i < t.length →
      rowLookup (mergeRow t i vals varNames rn) i (rn v)
        = some ((vals.lookup v).getD none) := by
  intro varNames
  induction varNames with
  | nil => intro t hv; cases hv
  | cons w ws ih =>
    intro t hv hinj hlen
    unfold mergeRow
    rw [List.foldl_cons]
    by_cases hvw : v ∈ ws
    · have h1 := ih (setTable t i (rn w) ((vals.lookup w).getD none)) hvw
        (fun w2 hw2 he => hinj w2 (List.mem_cons_of_mem w hw2) he)
        (by rw [setTable_length]; exact hlen)
      unfold mergeRow at h1
      exact h1
    · have hveq : v = w := by
        rcases List.mem_cons.mp hv with he | hm
        · exact he
        · cases hvw hm
      subst hveq
      have huntouched : ∀ w2 ∈ ws, rn w2 ≠ rn v := by
        intro w2 hw2 heq
        exact hvw ((hinj w2 (List.mem_cons_of_mem v hw2) heq) ▸ hw2)
      have h1 := rowLookup_mergeRow_other_col i i vals rn (rn v) ws
        (setTable t i (rn v) ((vals.lookup v).getD none)) huntouched
      unfold mergeRow at h1
      rw [h1]
      exact rowLookup_setTable_self t i (rn v) _ hlen

lemma rowLookup_mergeProduct_other_col (varNames : List String)
    (rn : String → String) (j : ℕ) (c : String)
    (h : ∀ v ∈ varNames, rn v ≠ c) :
    ∀ (results : List (ℕ × List (String × Option ℚ))) (t : Table),
      rowLookup (mergeProduct t results varNames rn) j c
        = rowLookup t j c := by
  intro results
  induction results with
  | nil => intro t; rfl
  | cons p ps ih =>
    intro t
    unfold mergeProduct
    rw [List.foldl_cons]
    have h1 := ih (mergeRow t p.1 p.2 varNames rn)
    unfold mergeProduct at h1
    rw [h1, rowLookup_mergeRow_other_col _ _ _ _ _ _ _ h]

lemma rowLookup_mergeProduct_other_row (varNames : List String)
    (rn : String → String) (j : ℕ) (c : String) :
    ∀ (results : List (ℕ × List (String × Option ℚ))) (t : Table),
      (∀ p ∈ results, p.1 ≠ j) →
      rowLookup (mergeProduct t results varNames rn) j c
        = rowLookup t j c := by
  intro results
  induction results with
  | nil => intro t _; rfl
  | cons p ps ih =>
    intro t h
    unfold mergeProduct
    rw [List.foldl_cons]
    have h1 := ih (mergeRow t p.1 p.2 varNames rn)
      (fun q hq => h q (List.mem_cons_of_mem p hq))
    unfold mergeProduct at h1
    rw [h1, rowLookup_mergeRow_other_row _ _ _ _ _
      (Ne.symm (h p (List.mem_cons_self p ps)))]

lemma rowLookup_mergeProduct_hit (varNames : List String)
    (rn : String → String) (v : String) (hv : v ∈ varNames)
    (hinj : ∀ w ∈ varNames, rn w = rn v → w = v) :
    ∀ (results : List (ℕ × List (String × Option ℚ))) (t : Table)
      (i : ℕ) (vals : List (String × Option ℚ)),
      (i, vals) ∈ results → (results.map Prod.fst).Nodup → i < t.length →
      rowLookup (mergeProduct t results varNames rn) i (rn v)
        = some ((vals.lookup v).getD none) := by
  intro results
  induction results with
  | nil => intro t i vals hres; cases hres
  | cons p ps ih =>
    intro t i vals hres hnodup hlen
    rw [List.map_cons, List.nodup_cons] at hnodup
    unfold mergeProduct
    rw [List.foldl_cons]
    rcases List.mem_cons.mp hres with he | hm
    · have hp : p = (i, vals) := he.symm
      subst hp
      have hnot : ∀ q ∈ ps, q.1 ≠ i := by
        intro q hq he2
        have hfst : q.1 ∈ ps.map Prod.fst := List.mem_map_of_mem Prod.fst hq
        rw [he2] at hfst
        exact hnodup.1 hfst
      have h1 := rowLookup_mergeProduct_other_row varNames rn i (rn v) ps
        (mergeRow t i vals varNames rn) hnot
      unfold mergeProduct at h1
      rw [h1]
      exact rowLookup_mergeRow_hit i vals rn v varNames t hv hinj hlen
    · have h1 := ih (mergeRow t p.1 p.2 varNames rn) i vals hm hnodup.2
        (by rw [mergeRow_length]; exact hlen)
      unfold mergeProduct at h1
      exact h1

lemma lookup_append_of_none (l1 l2 : OutRow) (k : String)
    (h : l1.lookup k = none) : (l1 ++ l2).lookup k = l2.lookup k := by
  induction l1 with
  | nil => simp
  | cons p rest ih =>
    rcases p with ⟨k0, v0⟩
    rcases hb : (k == k0) with _ | _
    · rw [List.cons_append, List.lookup_cons, hb]
      rw [List.lookup_cons, hb] at h
      exact ih h
    · rw [List.lookup_cons, hb] at h
      cases h

lemma lookup_append_of_some (l1 l2 : OutRow) (k : String) (x : Option ℚ)
    (h : l1.lookup k = some x) : (l1 ++ l2).lookup k = some x := by
  induction l1 with
  | nil => cases h
  | cons p rest ih =>
    rcases p with ⟨k0, v0⟩
    rcases hb : (k == k0) with _ | _
    · rw [List.cons_append, List.lookup_cons, hb]
      rw [List.lookup_cons, hb] at h
      exact ih h
    · rw [List.lookup_cons, hb] at h
      rw [List.cons_append, List.lookup_cons, hb]
      exact h

lemma insertIfAbsent_lookup_self (r : OutRow) (k : String) :
    ((insertIfAbsent r k).lookup k).isSome = true := by
  unfold insertIfAbsent
  rcases hl : r.lookup k with _ | x
  · rw [if_neg (by simp [hl])]
    rw [lookup_append_of_none r _ k hl]
    simp [List.lookup_cons]
  · rw [if_pos (by simp [hl]), hl]
    rfl

lemma insertIfAbsent_isSome_mono (r : OutRow) (k c : String)
    (h : (r.lookup c).isSome = true) :
    ((insertIfAbsent r c).lookup c).isSome = true ∧
      ((insertIfAbsent r k).lookup c).isSome = true := by
  refine ⟨insertIfAbsent_lookup_self r c, ?_⟩
  unfold insertIfAbsent
  rcases hl : r.lookup k with _ | x
  · rw [if_neg (by simp [hl])]
    rcases hc : r.lookup c with _ | y
    · rw [hc] at h; cases h
    · rw [lookup_append_of_some r _ c y hc]
      rfl
  · rw [if_pos (by simp [hl])]
    exact h

lemma insertIfAbsent_flat (r : OutRow) (k c : String)
    (h : r.lookup c = none ∨ r.lookup c = some none) :
    (insertIfAbsent r k).lookup c = none ∨
      (insertIfAbsent r k).lookup c = some none := by
  unfold insertIfAbsent
  rcases hl : r.lookup k with _ | x
  · rw [if_neg (by simp [hl])]
    rcases h with h | h
    · rw [lookup_append_of_none r _ c h]
      by_cases he : c = k
      · subst he
        right
        simp [List.lookup_cons]
      · left
        simp [List.lookup_cons, show (c == k) = false by simpa using he]
    · right
      exact lookup_append_of_some r _ c none h
  · rw [if_pos (by simp [hl])]
    exact h

lemma foldl_insert_isSome (f : String → String) (l : List String) :
    ∀ (r : OutRow) (c : String),
      (c ∈ l.map f ∨ (r.lookup c).isSome = true) →
      (((l.foldl (fun r2 v => insertIfAbsent r2 (f v)) r).lookup c).isSome)
        = true := by
  induction l with
  | nil =>
    intro r c h
    rcases h with h | h
    · cases h
    · exact h
  | cons x xs ih =>
    intro r c h
    rw [List.foldl_cons]
    apply ih
    by_cases hc : c = f x
    · right
      rw [hc]
      exact insertIfAbsent_lookup_self r (f x)
    · rcases h with h | h
      · rcases (by simpa using h : c = f x ∨ ∃ a ∈ xs, f a = c) with
          he | ⟨a, ha, hae⟩
        · cases hc he
        · left
          rw [← hae]
          exact List.mem_map_of_mem f ha
      · right
        exact (insertIfAbsent_isSome_mono r (f x) c h).2

lemma foldl_insert_flat (f : String → String) (l : List String) :
    ∀ (r : OutRow) (c : String),
      (r.lookup c = none ∨ r.lookup c = some none) →
      ((l.foldl (fun r2 v => insertIfAbsent r2 (f v)) r).lookup c = none ∨
        (l.foldl (fun r2 v => insertIfAbsent r2 (f v)) r).lookup c
          = some none) := by
  induction l with
  | nil => intro r c h; exact h
  | cons x xs ih =>
    intro r c h
    rw [List.foldl_cons]
    exact ih _ _ (insertIfAbsent_flat r (f x) c h)

lemma initRow_lookup_isSome (pv ov : List String) (c : String)
    (h : c ∈ pv ∨ ∃ v ∈ ov, c = rename_out "optics" v) :
    ((initRow pv ov).lookup c).isSome = true := by
  unfold initRow
  apply foldl_insert_isSome (rename_out "optics") ov
  rcases h with h | ⟨v, hv, he⟩
  · right
    apply foldl_insert_isSome (fun v => v) pv
    left
    simpa using h
  · left
    subst he
    exact List.mem_map_of_mem _ hv

lemma initRow_flat (pv ov : List String) (c : String) :
    (initRow pv ov).lookup c = none ∨
      (initRow pv ov).lookup c = some none := by
  unfold initRow
  apply foldl_insert_flat (rename_out "optics") ov
  apply foldl_insert_flat (fun v => v) pv
  left
  rfl

lemma initRow_lookup_eq (pv ov : List String) (c : String)
    (h : c ∈ pv ∨ ∃ v ∈ ov, c = rename_out "optics" v) :
    (initRow pv ov).lookup c = some none := by
  rcases initRow_flat pv ov c with h2 | h2
  · have := initRow_lookup_isSome pv ov c h
    rw [h2] at this
    cases this
  · exact h2

lemma groupRows_mem (samples : List Row) (d : ℚ) (p : ℕ × Row)
    (h : p ∈ groupRows samples d) :
    samples[p.1]? = some p.2 ∧ p.2.date = d := by
  unfold groupRows at h
  have h1 := List.mem_filter.mp h
  refine ⟨?_, by simpa using h1.2⟩
  have h2 := List.mem_enum_iff_get?.mp h1.1
  rwa [List.get?_eq_getElem?] at h2

lemma groupRows_fst_nodup (samples : List Row) (d : ℚ) :
    ((groupRows samples d).map Prod.fst).Nodup := by
  unfold groupRows
  have hsub : ((samples.enum.filter
        (fun p => decide (p.2.date = d))).map Prod.fst).Sublist
      (samples.enum.map Prod.fst) :=
    (List.filter_sublist _).map Prod.fst
  rw [List.enum_map_fst] at hsub
  exact (List.nodup_range _).sublist hsub

lemma groupRows_ne_nil (samples : List Row) (d : ℚ)
    (h : d ∈ samples.map Row.date) : groupRows samples d ≠ [] := by
  rcases List.mem_map.mp h with ⟨r, hr, he⟩
  rcases List.mem_iff_getElem.mp hr with ⟨i, hi, hie⟩
  have hmem : (i, r) ∈ samples.enum := by
    rw [List.mem_enum_iff_get?, List.get?_eq_getElem?]
    simp [List.getElem?_eq_getElem hi, hie]
  have : (i, r) ∈ groupRows samples d := by
    unfold groupRows
    rw [List.mem_filter]
    exact ⟨hmem, by simpa using he⟩
  exact List.ne_nil_of_mem this

lemma processRows_fst (ds : Dataset) (lv ov : List ℚ) (tIdx : Option ℕ)
    (varNames : List String) (tol : ℚ) :
    ∀ (rows : List (ℕ × Row)) (res : List (ℕ × List (String × Option ℚ))),
      processRows ds lv ov tIdx varNames tol rows = Except.ok res →
      res.map Prod.fst = rows.map Prod.fst := by
  intro rows
  induction rows with
  | nil =>
    intro res h
    simp only [processRows] at h
    cases h
    rfl
  | cons p rest ih =>
    intro res h
    rcases p with ⟨i, r⟩
    simp only [processRows] at h
    rcases h1 : process_row ds lv ov tIdx varNames tol r with e | vals
    · rw [h1] at h; cases h
    · rw [h1] at h
      rcases h2 : processRows ds lv ov tIdx varNames tol rest with e | res2
      · rw [h2] at h; cases h
      · rw [h2] at h
        cases h
        simp only [List.map_cons]
        rw [ih res2 h2]

lemma process_one_day_fst (ds : Dataset) (rows : List (ℕ × Row))
    (varNames : List String) (tol : ℚ)
    (res : List (ℕ × List (String × Option ℚ)))
    (h : process_one_day ds rows varNames tol = Except.ok res) :
    res.map Prod.fst = rows.map Prod.fst := by
  unfold process_one_day at h
  rcases hlat : ds.latAxis with _ | lv <;> rw [hlat] at h
  · cases h
  · rcases hlon : ds.lonAxis with _ | ov <;> rw [hlon] at h
    · cases h
    · rcases rows with _ | ⟨⟨i0, r0⟩, rest⟩
      · cases h
      · exact processRows_fst ds lv ov _ varNames tol _ res h

lemma process_row_ok (ds : Dataset) (lv ov : List ℚ) (tIdx : Option ℕ)
    (varNames : List String) (tol : ℚ) (r : Row)
    (hlv : lv ≠ []) (hov : ov ≠ []) :
    ∃ vals, process_row ds lv ov tIdx varNames tol r = Except.ok vals ∧
      vals.map Prod.fst = varNames := by
  unfold process_row
  rw [if_neg (by simpa [List.isEmpty_iff] using hov),
    if_neg (by simpa [List.isEmpty_iff] using hlv)]
  rcases hgm : gridMatch lv ov r.lat r.lon tol with ⟨ilat, ilon, acc⟩
  cases acc
  · refine ⟨_, rfl, ?_⟩
    rw [List.map_map,
      show (Prod.fst ∘ fun v => (v, (none : Option ℚ))) = id from rfl,
      List.map_id]
  · refine ⟨_, rfl, ?_⟩
    rw [List.map_map,
      show (Prod.fst ∘ fun v => (v, extractVar ds v ilat ilon tIdx)) = id
        from rfl, List.map_id]

lemma processRows_ok (ds : Dataset) (lv ov : List ℚ) (tIdx : Option ℕ)
    (varNames : List String) (tol : ℚ) (hlv : lv ≠ []) (hov : ov ≠ []) :
    ∀ (rows : List (ℕ × Row)),
      ∃ res, processRows ds lv ov tIdx varNames tol rows = Except.ok res := by
  intro rows
  induction rows with
  | nil => exact ⟨[], rfl⟩
  | cons p rest ih =>
    rcases p with ⟨i, r⟩
    rcases process_row_ok ds lv ov tIdx varNames tol r hlv hov with
      ⟨vals, hvals, _⟩
    rcases ih with ⟨res2, hres2⟩
    refine ⟨(i, vals) :: res2, ?_⟩
    simp only [processRows]
    rw [hvals, hres2]

lemma process_one_day_ok (ds : Dataset) (rows : List (ℕ × Row))
    (varNames : List String) (tol : ℚ) (hgood : goodDS ds)
    (hrows : rows ≠ []) :
    ∃ res, process_one_day ds rows varNames tol = Except.ok res := by
  rcases hgood with ⟨⟨lv, hlv, hlvne⟩, ⟨ov, hov, hovne⟩⟩
  unfold process_one_day
  rw [hlv, hov]
  rcases rows with _ | ⟨⟨i0, r0⟩, rest⟩
  · cases hrows rfl
  · exact processRows_ok ds lv ov _ varNames tol hlvne hovne _

lemma processProduct_ok_cases (product : String) (d : ℚ)
    (rows : List (ℕ × Row)) (varNames : List String) (tol : ℚ)
    (rds : Option Dataset) (t : Table) (ev : List Event) (t2 : Table)
    (h : processProduct product d rows varNames tol rds t
      = (ev, Except.ok t2)) :
    (rds = none ∧ ev = [] ∧ t2 = t) ∨
      (∃ ds res, rds = some ds ∧
        process_one_day ds rows (varNames.filter (fun v => dsHasVar ds v)) tol
          = Except.ok res ∧
        ev = [Event.openData product d, Event.closeData product d] ∧
        t2 = mergeProduct t res varNames (rename_out product)) := by
  rcases rds with _ | ds
  · left
    simp only [processProduct] at h
    cases h
    exact ⟨rfl, rfl, rfl⟩
  · right
    simp only [processProduct] at h
    rcases h1 : process_one_day ds rows
        (varNames.filter (fun v => dsHasVar ds v)) tol with e | res
    · rw [h1] at h
      dsimp only at h
      cases h
    · rw [h1] at h
      dsimp only at h
      cases h
      exact ⟨ds, res, rfl, h1, rfl, rfl⟩

lemma processProduct_error_cases (product : String) (d : ℚ)
    (rows : List (ℕ × Row)) (varNames : List String) (tol : ℚ)
    (rds : Option Dataset) (t : Table) (ev : List Event) (e : String)
    (h : processProduct product d rows varNames tol rds t
      = (ev, Except.error e)) :
    ∃ ds, rds = some ds ∧
      process_one_day ds rows (varNames.filter (fun v => dsHasVar ds v)) tol
        = Except.error e ∧
      ev = [Event.openData product d] := by
  rcases rds with _ | ds
  · simp only [processProduct] at h
    cases h
  · simp only [processProduct] at h
    rcases h1 : process_one_day ds rows
        (varNames.filter (fun v => dsHasVar ds v)) tol with e2 | res
    · rw [h1] at h
      dsimp only at h
      cases h
      exact ⟨ds, rfl, h1, rfl⟩
    · rw [h1] at h
      dsimp only at h
      cases h

lemma runStep_ok_cases (pv ov : List String) (tol : ℚ) (samples : List Row)
    (fP : ℚ → Option Dataset) (fO : Option (ℚ → Option Dataset)) (d : ℚ)
    (t : Table) (ev : List Event) (t1 : Table)
    (h : runStep pv ov tol samples fP fO d t = (ev, Except.ok t1)) :
    ∃ ev1 tp, processProduct "plankton" d (groupRows samples d) pv tol (fP d) t
        = (ev1, Except.ok tp) ∧
      ((fO = none ∧ ev = ev1 ∧ t1 = tp) ∨
        (∃ f ev2, fO = some f ∧
          processProduct "optics" d (groupRows samples d) ov tol (f d) tp
            = (ev2, Except.ok t1) ∧
          ev = ev1 ++ ev2)) := by
  unfold runStep at h
  rcases h1 : processProduct "plankton" d (groupRows samples d) pv tol (fP d) t
    with ⟨ev1, r1⟩
  rw [h1] at h
  rcases r1 with e | tp
  · dsimp only at h
    cases h
  · dsimp only at h
    refine ⟨ev1, tp, rfl, ?_⟩
    rcases fO with _ | f
    · left
      dsimp only at h
      cases h
      exact ⟨rfl, rfl, rfl⟩
    · right
      dsimp only at h
      rcases h2 : processProduct "optics" d (groupRows samples d) ov tol
          (f d) tp with ⟨ev2, r2⟩
      rw [h2] at h
      dsimp only at h
      rcases r2 with e | t2
      · cases h
      · cases h
        exact ⟨f, ev2, rfl, h2, rfl⟩

lemma runStep_error_cases (pv ov : List String) (tol : ℚ)
    (samples : List Row) (fP : ℚ → Option Dataset)
    (fO : Option (ℚ → Option Dataset)) (d : ℚ) (t : Table)
    (ev : List Event) (e : String)
    (h : runStep pv ov tol samples fP fO d t = (ev, Except.error e)) :
    (∃ ev1, processProduct "plankton" d (groupRows samples d) pv tol (fP d) t
        = (ev1, Except.error e) ∧ ev = ev1) ∨
      (∃ ev1 tp f ev2,
        processProduct "plankton" d (groupRows samples d) pv tol (fP d) t
          = (ev1, Except.ok tp) ∧ fO = some f ∧
        processProduct "optics" d (groupRows samples d) ov tol (f d) tp
          = (ev2, Except.error e) ∧ ev = ev1 ++ ev2) := by
  unfold runStep at h
  rcases h1 : processProduct "plankton" d (groupRows samples d) pv tol (fP d) t
    with ⟨ev1, r1⟩
  rw [h1] at h
  rcases r1 with e2 | tp
  · left
    dsimp only at h
    cases h
    exact ⟨_, rfl, rfl⟩
  · right
    dsimp only at h
    rcases fO with _ | f
    · dsimp only at h
      cases h
    · dsimp only at h
      rcases h2 : processProduct "optics" d (groupRows samples d) ov tol
          (f d) tp with ⟨ev2, r2⟩
      rw [h2] at h
      dsimp only at h
      rcases r2 with e2 | t2
      · cases h
        exact ⟨ev1, tp, f, ev2, rfl, rfl, h2, rfl⟩
      · cases h

lemma runGroups_cons_ok (pv ov : List String) (tol : ℚ) (samples : List Row)
    (fP : ℚ → Option Dataset) (fO : Option (ℚ → Option Dataset)) (d : ℚ)
    (dl : List ℚ) (t : Table) (ev : List Event) (u : Table)
    (h : runGroups pv ov tol samples fP fO (d :: dl) t
      = (ev, Except.ok u)) :
    ∃ ev1 t1 evs, runStep pv ov tol samples fP fO d t
        = (ev1, Except.ok t1) ∧
      runGroups pv ov tol samples fP fO dl t1 = (evs, Except.ok u) ∧
      ev = Event.beginGroup d :: (ev1 ++ evs) := by
  unfold runGroups at h
  rcases h1 : runStep pv ov tol samples fP fO d t with ⟨ev1, r1⟩
  rw [h1] at h
  rcases r1 with e | t1
  · dsimp only at h
    cases h
  · dsimp only at h
    rcases h2 : runGroups pv ov tol samples fP fO dl t1 with ⟨evs, res⟩
    rw [h2] at h
    dsimp only at h
    rcases res with e | u2
    · cases h
    · cases h
      exact ⟨ev1, t1, evs, rfl, h2, rfl⟩

lemma runGroups_preserve (pv ov : List String) (tol : ℚ)
    (samples : List Row) (fP : ℚ → Option Dataset)
    (fO : Option (ℚ → Option Dataset)) (P : Table → Prop)
    (hstep : ∀ d t t1 ev, runStep pv ov tol samples fP fO d t
      = (ev, Except.ok t1) → P t → P t1) :
    ∀ (dl : List ℚ) (t : Table) (ev : List Event) (u : Table),
      runGroups pv ov tol samples fP fO dl t = (ev, Except.ok u) →
      P t → P u := by
  intro dl
  induction dl with
  | nil =>
    intro t ev u h hp
    simp only [runGroups] at h
    cases h
    exact hp
  | cons d dl2 ih =>
    intro t ev u h hp
    rcases runGroups_cons_ok pv ov tol samples fP fO d dl2 t ev u h with
      ⟨ev1, t1, evs, h1, h2, _⟩
    exact ih t1 evs u h2 (hstep d t t1 ev1 h1 hp)

lemma rowLookup_mergeRow_isSome (i : ℕ) (vals : List (String × Option ℚ))
    (rn : String → String) (j : ℕ) (c : String) :
    ∀ (varNames : List String) (t : Table),
      (rowLookup t j c).isSome = true →
      (rowLookup (mergeRow t i vals varNames rn) j c).isSome = true := by
  intro varNames
  induction varNames with
  | nil => intro t h; exact h
  | cons v vs ih =>
    intro t h
    unfold mergeRow
    rw [List.foldl_cons]
    have h1 := ih (setTable t i (rn v) ((vals.lookup v).getD none))
      (rowLookup_setTable_isSome t i j (rn v) c _ h)
    unfold mergeRow at h1
    exact h1

lemma rowLookup_mergeProduct_isSome (varNames : List String)
    (rn : String → String) (j : ℕ) (c : String) :
    ∀ (results : List (ℕ × List (String × Option ℚ))) (t : Table),
      (rowLookup t j c).isSome = true →
      (rowLookup  (mergeProduct t results varNames rn) j c).isSome = true := by
  intro results
  induction results with
  | nil => intro t h; exact h
  | cons p ps ih =>
    intro t h
    unfold mergeProduct
    rw [List.foldl_cons]
    have h1 := ih (mergeRow t p.1 p.2 varNames rn)
      (rowLookup_mergeRow_isSome p.1 p.2 rn j c varNames t h)
    unfold mergeProduct at h1
    exact h1

lemma processProduct_ok_length (product : String) (d : ℚ)
    (rows : List (ℕ × Row)) (varNames : List String) (tol : ℚ)
    (rds : Option Dataset) (t : Table) (ev : List Event) (t2 : Table)
    (h : processProduct product d rows varNames tol rds t
      = (ev, Except.ok t2)) : t2.length = t.length := by
  rcases processProduct_ok_cases product d rows varNames tol rds t ev t2 h
    with ⟨_, _, he⟩ | ⟨ds, res, _, _, _, he⟩
  · rw [he]
  · rw [he, mergeProduct_length]

lemma runStep_ok_length (pv ov : List String) (tol : ℚ) (samples : List Row)
    (fP : ℚ → Option Dataset) (fO : Option (ℚ → Option Dataset)) (d : ℚ)
    (t : Table) (ev : List Event) (t1 : Table)
    (h : runStep pv ov tol samples fP fO d t = (ev, Except.ok t1)) :
    t1.length = t.length := by
  rcases runStep_ok_cases pv ov tol samples fP fO d t ev t1 h with
    ⟨ev1, tp, h1, ⟨_, _, he⟩ | ⟨f, ev2, _, h2, _⟩⟩
  · rw [he]
    exact processProduct_ok_length _ _ _ _ _ _ _ _ _ h1
  · rw [processProduct_ok_length _ _ _ _ _ _ _ _ _ h2]
    exact processProduct_ok_length _ _ _ _ _ _ _ _ _ h1

lemma table0_rowLookup (pv ov : List String) (samples : List Row) (j : ℕ)
    (hj : j < samples.length) (c : String) :
    rowLookup (samples.map (fun _ => initRow pv ov)) j c
      = (initRow pv ov).lookup c := by
  unfold rowLookup
  have hj2 : j < (samples.map (fun _ => initRow pv ov)).length := by
    simpa using hj
  rw [List.getD_eq_getElem _ _ hj2]
  simp

/-- C2: whenever the run completes, the output table has one record per
sample and every record contains an entry for every requested output
column of both configured products (the plankton names, and the optics
names routed through the rename rule) — a finite value or the no-data
marker, never an omission. -/
theorem output_complete (pv ov : List String) (tol : ℚ)
    (samples : List Row) (fP : ℚ → Option Dataset)
    (fO : Option (ℚ → Option Dataset)) (t : Table)
    (h : (runMain pv ov tol samples fP fO).2 = Except.ok t) :
    t.length = samples.length ∧
      ∀ i c, i < samples.length →
        (c ∈ pv ∨ ∃ v ∈ ov, c = rename_out "optics" v) →
        (rowLookup t i c).isSome = true := by
  unfold runMain at h
  rcases hr : runGroups pv ov tol samples fP fO (sortedDates samples)
      (samples.map (fun _ => initRow pv ov)) with ⟨ev, res⟩
  rw [hr] at h
  simp only at h
  subst h
  have hmain := runGroups_preserve pv ov tol samples fP fO
    (fun t2 => t2.length = samples.length ∧
      ∀ i c, i < samples.length →
        (c ∈ pv ∨ ∃ v ∈ ov, c = rename_out "optics" v) →
        (rowLookup t2 i c).isSome = true)
    ?_ (sortedDates samples) _ ev t hr ?_
  · exact hmain
  · intro d t0 t1 ev0 hstep ⟨hlen, hkeys⟩
    constructor
    · rw [runStep_ok_length pv ov tol samples fP fO d t0 ev0 t1 hstep, hlen]
    · intro i c hi hc
      rcases runStep_ok_cases pv ov tol samples fP fO d t0 ev0 t1 hstep with
        ⟨ev1, tp, h1, hcase⟩
      have hkeyP : (rowLookup tp i c).isSome = true := by
        rcases processProduct_ok_cases _ _ _ _ _ _ _ _ _ h1 with
          ⟨_, _, he⟩ | ⟨ds, res2, _, _, _, he⟩
        · rw [he]; exact hkeys i c hi hc
        · rw [he]
          exact rowLookup_mergeProduct_isSome _ _ _ _ _ _ (hkeys i c hi hc)
      rcases hcase with ⟨_, _, he⟩ | ⟨f, ev2, _, h2, _⟩
      · rw [he]; exact hkeyP
      · rcases processProduct_ok_cases _ _ _ _ _ _ _ _ _ h2 with
          ⟨_, _, he⟩ | ⟨ds, res2, _, _, _, he⟩
        · rw [he]; exact hkeyP
        · rw [he]
          exact rowLookup_mergeProduct_isSome _ _ _ _ _ _ hkeyP
  · constructor
    · simp
    · intro i c hi hc
      rw [table0_rowLookup pv ov samples i hi c]
      exact initRow_lookup_isSome pv ov c hc

/-- Witness for `output_complete`: a one-sample run with no resolvable
files still carries an entry (the no-data marker) for a plankton
variable and for the renamed optics flags column. -/
theorem output_complete_witness :
    (rowLookup
        (match (runMain ["CHL"] ["flags"] 1 [⟨0, 0, 0⟩]
            (fun _ => none) none).2 with
          | Except.ok t => t
          | Except.error _ => []) 0 "CHL").isSome = true ∧
      (rowLookup
        (match (runMain ["CHL"] ["flags"] 1 [⟨0, 0, 0⟩]
            (fun _ => none) none).2 with
          | Except.ok t => t
          | Except.error _ => []) 0 "flags_optics").isSome = true := by
  have h := output_complete ["CHL"] ["flags"] 1 [⟨0, 0, 0⟩]
    (fun _ => none) none
    (match (runMain ["CHL"] ["flags"] 1 [⟨0, 0, 0⟩]
        (fun _ => none) none).2 with
      | Except.ok t => t
      | Except.error _ => []) (by rfl)
  exact ⟨h.2 0 "CHL" (by simp) (Or.inl (by simp)),
    h.2 0 "flags_optics" (by simp)
      (Or.inr ⟨"flags", by simp, by rfl⟩)⟩

lemma processProduct_ok_of_good (product : String) (d : ℚ)
    (rows : List (ℕ × Row)) (varNames : List String) (tol : ℚ)
    (rds : Option Dataset) (t : Table)
    (hg : ∀ ds, rds = some ds → goodDS ds) (hrows : rows ≠ []) :
    ∃ ev t2, processProduct product d rows varNames tol rds t
      = (ev, Except.ok t2) := by
  rcases rds with _ | ds
  · exact ⟨[], t, rfl⟩
  · rcases process_one_day_ok ds rows
        (varNames.filter (fun v => dsHasVar ds v)) tol (hg ds rfl) hrows with
      ⟨res, hres⟩
    refine ⟨[Event.openData product d, Event.closeData product d],
      mergeProduct t res varNames (rename_out product), ?_⟩
    simp only [processProduct]
    rw [hres]

lemma runStep_ok_of_good (pv ov : List String) (tol : ℚ)
    (samples : List Row) (fP : ℚ → Option Dataset)
    (fO : Option (ℚ → Option Dataset)) (d : ℚ) (t : Table)
    (hP : ∀ ds, fP d = some ds → goodDS ds)
    (hO : ∀ f, fO = some f → ∀ ds, f d = some ds → goodDS ds)
    (hrows : groupRows samples d ≠ []) :
    ∃ ev t1, runStep pv ov tol samples fP fO d t = (ev, Except.ok t1) := by
  rcases processProduct_ok_of_good "plankton" d (groupRows samples d) pv tol
      (fP d) t hP hrows with ⟨ev1, tp, h1⟩
  rcases fO with _ | f
  · refine ⟨ev1, tp, ?_⟩
    unfold runStep
    rw [h1]
  · rcases processProduct_ok_of_good "optics" d (groupRows samples d) ov tol
        (f d) tp (hO f rfl) hrows with ⟨ev2, t2, h2⟩
    refine ⟨ev1 ++ ev2, t2, ?_⟩
    unfold runStep
    rw [h1]
    dsimp only
    rw [h2]

lemma runGroups_ok_of_good (pv ov : List String) (tol : ℚ)
    (samples : List Row) (fP : ℚ → Option Dataset)
    (fO : Option (ℚ → Option Dataset))
    (hP : ∀ d ds, fP d = some ds → goodDS ds)
    (hO : ∀ f, fO = some f → ∀ d ds, f d = some ds → goodDS ds) :
    ∀ (dl : List ℚ), (∀ d ∈ dl, d ∈ samples.map Row.date) → ∀ (t : Table),
      ∃ ev u, runGroups pv ov tol samples fP fO dl t
        = (ev, Except.ok u) := by
  intro dl
  induction dl with
  | nil => intro _ t; exact ⟨[], t, rfl⟩
  | cons d dl2 ih =>
    intro hmem t
    rcases runStep_ok_of_good pv ov tol samples fP fO d t
        (fun ds hds => hP d ds hds) (fun f hf ds hds => hO f hf d ds hds)
        (groupRows_ne_nil samples d (hmem d (List.mem_cons_self d dl2)))
      with ⟨ev1, t1, h1⟩
    rcases ih (fun d2 hd2 => hmem d2 (List.mem_cons_of_mem d hd2)) t1 with
      ⟨evs, u, h2⟩
    refine ⟨Event.beginGroup d :: (ev1 ++ evs), u, ?_⟩
    unfold runGroups
    rw [h1]
    dsimp only
    rw [h2]

/-- C1 (amended): every per-sample / per-day failure among {no candidate
file, no openable candidate, variable absent from an opened dataset,
out-of-tolerance match, invalid or failed read} degrades to no-data
markers and the run continues through every day-group: whenever every
dataset the resolvers deliver has both coordinate axes present and
non-empty, the whole run completes without raising.  (A successfully
opened dataset LACKING a lat/lon axis is the exception the original
claim gets wrong: it raises `KeyError`, which propagates out of the
core and aborts the run — see the counterexample.) -/
theorem run_completes_of_good_axes (pv ov : List String) (tol : ℚ)
    (samples : List Row) (fP : ℚ → Option Dataset)
    (fO : Option (ℚ → Option Dataset))
    (hP : ∀ d ds, fP d = some ds → goodDS ds)
    (hO : ∀ f, fO = some f → ∀ d ds, f d = some ds → goodDS ds) :
    ((runMain pv ov tol samples fP fO).2).isOk = true := by
  unfold runMain
  have hmem : ∀ d ∈ sortedDates samples, d ∈ samples.map Row.date := by
    intro d hd
    unfold sortedDates at hd
    rw [(List.perm_insertionSort _ _).mem_iff, List.mem_dedup] at hd
    exact hd
  rcases runGroups_ok_of_good pv ov tol samples fP fO hP hO
      (sortedDates samples) hmem (samples.map (fun _ => initRow pv ov)) with
    ⟨ev, u, h⟩
  rw [h]
  rfl

/-- Witness for `run_completes_of_good_axes`: a run where no file
resolves for any day completes without raising. -/
theorem run_completes_of_good_axes_witness :
    ((runMain ["CHL"] ["flags"] 1 [⟨0, 0, 0⟩] (fun _ => none)
        none).2).isOk = true :=
  run_completes_of_good_axes ["CHL"] ["flags"] 1 [⟨0, 0, 0⟩]
    (fun _ => none) none (fun _ _ h => nomatch h) (fun _ h => nomatch h)

/-- C1 counterexample: a dataset that opens but lacks the lat/lon
coordinates is NOT treated as an open failure — `ds["lat"]` raises
`KeyError`, the exception propagates out of the core, and the run
aborts instead of continuing to the next day-group (here the sample
dated day 1 is never processed). -/
theorem missing_axes_exception_escapes :
    (runMain ["CHL"] [] (1/20) [⟨0, 10, 20⟩, ⟨1, 10, 20⟩]
        (fun _ => some ⟨none, none, [], []⟩) none).2
      = Except.error "KeyError" := by rfl

lemma ppBlock_trace (b : Bool) (ev rest : List Event)
    (h : ev = [] ∨ ∃ p d1, ev = [Event.openData p d1, Event.closeData p d1]) :
    balancedTrace b 0 (ev ++ rest) = balancedTrace b 0 rest := by
  rcases h with h | ⟨p, d1, h⟩ <;> subst h <;> simp [balancedTrace]

lemma processProduct_ok_evshape (product : String) (d : ℚ)
    (rows : List (ℕ × Row)) (varNames : List String) (tol : ℚ)
    (rds : Option Dataset) (t : Table) (ev : List Event) (t2 : Table)
    (h : processProduct product d rows varNames tol rds t
      = (ev, Except.ok t2)) :
    ev = [] ∨ ∃ p d1, ev = [Event.openData p d1, Event.closeData p d1] := by
  rcases processProduct_ok_cases product d rows varNames tol rds t ev t2 h
    with ⟨_, he, _⟩ | ⟨ds, res, _, _, he, _⟩
  · exact Or.inl he
  · exact Or.inr ⟨product, d, he⟩

lemma runStep_ok_evshape (pv ov : List String) (tol : ℚ)
    (samples : List Row) (fP : ℚ → Option Dataset)
    (fO : Option (ℚ → Option Dataset)) (d : ℚ) (t : Table)
    (ev : List Event) (t1 : Table)
    (h : runStep pv ov tol samples fP fO d t = (ev, Except.ok t1)) :
    ∀ (b : Bool) (rest : List Event),
      balancedTrace b 0 (ev ++ rest) = balancedTrace b 0 rest := by
  intro b rest
  rcases runStep_ok_cases pv ov tol samples fP fO d t ev t1 h with
    ⟨ev1, tp, h1, ⟨_, he, _⟩ | ⟨f, ev2, _, h2, he⟩⟩
  · rw [he]
    exact ppBlock_trace b ev1 rest
      (processProduct_ok_evshape _ _ _ _ _ _ _ _ _ h1)
  · subst he
    rw [List.append_assoc,
      ppBlock_trace b ev1 _ (processProduct_ok_evshape _ _ _ _ _ _ _ _ _ h1),
      ppBlock_trace b ev2 _ (processProduct_ok_evshape _ _ _ _ _ _ _ _ _ h2)]

lemma runStep_error_trace_weak (pv ov : List String) (tol : ℚ)
    (samples : List Row) (fP : ℚ → Option Dataset)
    (fO : Option (ℚ → Option Dataset)) (d : ℚ) (t : Table)
    (ev : List Event) (e : String)
    (h : runStep pv ov tol samples fP fO d t = (ev, Except.error e)) :
    balancedTrace false 0 ev = true := by
  rcases runStep_error_cases pv ov tol samples fP fO d t ev e h with
    ⟨ev1, h1, he⟩ | ⟨ev1, tp, f, ev2, h1, _, h2, he⟩
  · rcases processProduct_error_cases _ _ _ _ _ _ _ _ _ h1 with ⟨ds, _, _, hev⟩
    subst he
    rw [hev]
    simp [balancedTrace]
  · subst he
    rcases processProduct_error_cases _ _ _ _ _ _ _ _ _ h2 with ⟨ds, _, _, hev⟩
    rw [hev,
      ppBlock_trace false ev1 _ (processProduct_ok_evshape _ _ _ _ _ _ _ _ _ h1)]
    simp [balancedTrace]

lemma runGroups_trace (pv ov : List String) (tol : ℚ) (samples : List Row)
    (fP : ℚ → Option Dataset) (fO : Option (ℚ → Option Dataset)) :
    ∀ (dl : List ℚ) (t : Table),
      balancedTrace false 0 (runGroups pv ov tol samples fP fO dl t).1
          = true ∧
        (((runGroups pv ov tol samples fP fO dl t).2).isOk = true →
          balancedTrace true 0 (runGroups pv ov tol samples fP fO dl t).1
            = true) := by
  intro dl
  induction dl with
  | nil => intro t; exact ⟨rfl, fun _ => rfl⟩
  | cons d dl2 ih =>
    intro t
    rcases hs : runStep pv ov tol samples fP fO d t with ⟨ev, r⟩
    unfold runGroups
    rw [hs]
    rcases r with e | t1
    · dsimp only
      constructor
      · have h1 := runStep_error_trace_weak pv ov tol samples fP fO d t ev e hs
        simpa [balancedTrace] using h1
      · intro habs
        simp [Except.isOk, Except.toBool] at habs
    · dsimp only
      rcases hr : runGroups pv ov tol samples fP fO dl2 t1 with ⟨evs, res⟩
      have ih2 := ih t1
      rw [hr] at ih2
      dsimp only
      have hshape := runStep_ok_evshape pv ov tol samples fP fO d t ev t1 hs
      constructor
      · have : balancedTrace false 0 (Event.beginGroup d :: (ev ++ evs))
            = balancedTrace false 0 (ev ++ evs) := by
          simp [balancedTrace]
        rw [this, hshape false evs]
        exact ih2.1
      · intro hok
        have : balancedTrace true 0 (Event.beginGroup d :: (ev ++ evs))
            = balancedTrace true 0 (ev ++ evs) := by
          simp [balancedTrace]
        rw [this, hshape true evs]
        exact ih2.2 hok

/-- C8 counterexample: when the opened plankton dataset lacks the lat
axis, `process_one_day` raises before `ds.close()` is reached: the run's
trace opens a dataset and never closes it — the dataset is NOT closed on
this (partial-failure) exit path, contradicting "closed on every exit
path". -/
theorem dataset_close_skipped_on_failure :
    (runMain ["CHL"] [] (1/20) [⟨0, 10, 20⟩]
        (fun _ => some ⟨none, none, [], []⟩) none).1
      = [Event.beginGroup 0, Event.openData "plankton" 0] ∧
      balancedTrace true 0
        [Event.beginGroup 0, Event.openData "plankton" 0] = false := by
  constructor
  · rfl
  · rfl

/-- C8 (amended): on every run, no day-group ever begins while a
previous group's dataset handle is still open; and whenever the run
completes without raising, every opened dataset is also closed before
the run ends — so the original claim holds on every non-raising exit
path, while a group whose processing raises leaks its open handle as
the exception propagates (see the counterexample). -/
theorem trace_balanced_on_ok_runs (pv ov : List String) (tol : ℚ)
    (samples : List Row) (fP : ℚ → Option Dataset)
    (fO : Option (ℚ → Option Dataset)) :
    balancedTrace false 0 ((runMain pv ov tol samples fP fO).1) = true ∧
      (((runMain pv ov tol samples fP fO).2).isOk = true →
        balancedTrace true 0 ((runMain pv ov tol samples fP fO).1)
          = true) := by
  unfold runMain
  exact runGroups_trace pv ov tol samples fP fO (sortedDates samples) _

/-- Witness for `trace_balanced_on_ok_runs` on a completed concrete
run. -/
theorem trace_balanced_on_ok_runs_witness :
    balancedTrace false 0
        ((runMain ["CHL"] [] 1 [⟨0, 0, 0⟩] (fun _ => none) none).1)
      = true ∧
      balancedTrace true 0
        ((runMain ["CHL"] [] 1 [⟨0, 0, 0⟩] (fun _ => none) none).1)
      = true :=
  ⟨(trace_balanced_on_ok_runs ["CHL"] [] 1 [⟨0, 0, 0⟩]
      (fun _ => none) none).1,
    (trace_balanced_on_ok_runs ["CHL"] [] 1 [⟨0, 0, 0⟩]
      (fun _ => none) none).2 (by rfl)⟩

lemma rename_plankton_id (v : String) : rename_out "plankton" v = v := by
  unfold rename_out
  rw [if_neg]
  rintro ⟨h, _⟩
  exact absurd h (by decide)

lemma rowLookup_setTable_congr (t t' : Table) (i : ℕ) (k : String)
    (val : Option ℚ) (j : ℕ) (c : String) (hlen : t.length = t'.length)
    (h : rowLookup t j c = rowLookup t' j c) :
    rowLookup (setTable t i k val) j c
      = rowLookup (setTable t' i k val) j c := by
  by_cases hij : j = i
  · subst hij
    by_cases hck : c = k
    · subst hck
      by_cases hl : j < t.length
      · rw [rowLookup_setTable_self t j c val hl,
          rowLookup_setTable_self t' j c val (hlen ▸ hl)]
      · have h1 : setTable t j c val = t := by
          unfold setTable
          rw [List.set_eq_of_length_le (not_lt.mp hl)]
        have h2 : setTable t' j c val = t' := by
          unfold setTable
          rw [List.set_eq_of_length_le (not_lt.mp (hlen ▸ hl))]
        rw [h1, h2]
        exact h
    · rw [rowLookup_setTable_other t j j k c val (Or.inr hck),
        rowLookup_setTable_other t' j j k c val (Or.inr hck)]
      exact h
  · rw [rowLookup_setTable_other t i j k c val (Or.inl hij),
      rowLookup_setTable_other t' i j k c val (Or.inl hij)]
    exact h

lemma rowLookup_mergeRow_congr (i : ℕ) (vals : List (String × Option ℚ))
    (rn : String → String) (j : ℕ) (c : String) :
    ∀ (varNames : List String) (t t' : Table), t.length = t'.length →
      rowLookup t j c = rowLookup t' j c →
      rowLookup (mergeRow t i vals varNames rn) j c
        = rowLookup (mergeRow t' i vals varNames rn) j c := by
  intro varNames
  induction varNames with
  | nil => intro t t' _ h; exact h
  | cons v vs ih =>
    intro t t' hlen h
    unfold mergeRow
    rw [List.foldl_cons]
    have h1 := ih (setTable t i (rn v) ((vals.lookup v).getD none))
      (setTable t' i (rn v) ((vals.lookup v).getD none))
      (by rw [setTable_length, setTable_length, hlen])
      (rowLookup_setTable_congr t t' i (rn v) _ j c hlen h)
    unfold mergeRow at h1
    exact h1

lemma rowLookup_mergeProduct_congr (varNames : List String)
    (rn : String → String) (j : ℕ) (c : String) :
    ∀ (results : List (ℕ × List (String × Option ℚ))) (t t' : Table),
      t.length = t'.length → rowLookup t j c = rowLookup t' j c →
      rowLookup (mergeProduct t results varNames rn) j c
        = rowLookup (mergeProduct t' results varNames rn) j c := by
  intro results
  induction results with
  | nil => intro t t' _ h; exact h
  | cons p ps ih =>
    intro t t' hlen h
    unfold mergeProduct
    rw [List.foldl_cons]
    have h1 := ih (mergeRow t p.1 p.2 varNames rn)
      (mergeRow t' p.1 p.2 varNames rn)
      (by rw [mergeRow_length, mergeRow_length, hlen])
      (rowLookup_mergeRow_congr p.1 p.2 rn j c varNames t t' hlen h)
    unfold mergeProduct at h1
    exact h1

lemma plankton_step_untouched (d : ℚ) (rows : List (ℕ × Row))
    (pv : List String) (tol : ℚ) (rds : Option Dataset) (t : Table)
    (ev : List Event) (t2 : Table)
    (h : processProduct "plankton" d rows pv tol rds t = (ev, Except.ok t2))
    (j : ℕ) (c : String) (hc : c ∉ pv) :
    rowLookup t2 j c = rowLookup t j c := by
  rcases processProduct_ok_cases _ _ _ _ _ _ _ _ _ h with
    ⟨_, _, he⟩ | ⟨ds, res, _, _, _, he⟩
  · rw [he]
  · rw [he]
    apply rowLookup_mergeProduct_other_col
    intro v hv he2
    rw [rename_plankton_id v] at he2
    exact hc (he2 ▸ hv)

lemma runGroups_parallel (pv ov : List String) (tol : ℚ)
    (samples : List Row) (fP fP' : ℚ → Option Dataset)
    (f : ℚ → Option Dataset) :
    ∀ (dl : List ℚ) (t t' : Table) (ev ev' : List Event) (u u' : Table),
      runGroups pv ov tol samples fP (some f) dl t = (ev, Except.ok u) →
      runGroups pv ov tol samples fP' (some f) dl t' = (ev', Except.ok u') →
      t.length = t'.length →
      (∀ j c, c ∉ pv → rowLookup t j c = rowLookup t' j c) →
      u.length = u'.length ∧
        ∀ j c, c ∉ pv → rowLookup u j c = rowLookup u' j c := by
  intro dl
  induction dl with
  | nil =>
    intro t t' ev ev' u u' h h' hlen hagree
    simp only [runGroups] at h h'
    cases h
    cases h'
    exact ⟨hlen, hagree⟩
  | cons d dl2 ih =>
    intro t t' ev ev' u u' h h' hlen hagree
    rcases runGroups_cons_ok _ _ _ _ _ _ _ _ _ _ _ h with
      ⟨ev1, t1, evs, hs, hrest, _⟩
    rcases runGroups_cons_ok _ _ _ _ _ _ _ _ _ _ _ h' with
      ⟨ev1', t1', evs', hs', hrest', _⟩
    rcases runStep_ok_cases _ _ _ _ _ _ _ _ _ _ hs with
      ⟨evp, tp, hp, ⟨hno, _, _⟩ | ⟨f2, ev2, hf2, ho, _⟩⟩
    · cases hno
    rcases runStep_ok_cases _ _ _ _ _ _ _ _ _ _ hs' with
      ⟨evp', tp', hp', ⟨hno', _, _⟩ | ⟨f2', ev2', hf2', ho', _⟩⟩
    · cases hno'
    have hf2e : f2 = f := by
      injection hf2 with he
      exact he.symm
    have hf2e' : f2' = f := by
      injection hf2' with he
      exact he.symm
    subst hf2e
    subst hf2e'
    have hlenp : tp.length = tp'.length := by
      rw [processProduct_ok_length _ _ _ _ _ _ _ _ _ hp,
        processProduct_ok_length _ _ _ _ _ _ _ _ _ hp', hlen]
    have hagreep : ∀ j c, c ∉ pv → rowLookup tp j c = rowLookup tp' j c := by
      intro j c hc
      rw [plankton_step_untouched _ _ _ _ _ _ _ _ hp j c hc,
        plankton_step_untouched _ _ _ _ _ _ _ _ hp' j c hc]
      exact hagree j c hc
    have hlen1 : t1.length = t1'.length := by
      rw [processProduct_ok_length _ _ _ _ _ _ _ _ _ ho,
        processProduct_ok_length _ _ _ _ _ _ _ _ _ ho', hlenp]
    have hagree1 : ∀ j c, c ∉ pv →
        rowLookup t1 j c = rowLookup t1' j c := by
      intro j c hc
      rcases processProduct_ok_cases _ _ _ _ _ _ _ _ _ ho with
        ⟨hnone, _, he⟩ | ⟨ds, res, hsome, hres, _, he⟩
      · rcases processProduct_ok_cases _ _ _ _ _ _ _ _ _ ho' with
          ⟨_, _, he'⟩ | ⟨ds', res', hsome', _, _, _⟩
        · rw [he, he']
          exact hagreep j c hc
        · rw [hnone] at hsome'
          cases hsome'
      · rcases processProduct_ok_cases _ _ _ _ _ _ _ _ _ ho' with
          ⟨hnone', _, _⟩ | ⟨ds', res', hsome', hres', _, he'⟩
        · rw [hsome] at hnone'
          cases hnone'
        · have hds : ds' = ds := by
            rw [hsome] at hsome'
            injection hsome' with he2
            exact he2.symm
          subst hds
          have hresx : res' = res := by
            rw [hres] at hres'
            injection hres' with he2
            exact he2.symm
          rw [he, he', hresx]
          exact rowLookup_mergeProduct_congr ov (rename_out "optics") j c
            res tp tp' hlenp (hagreep j c hc)
    exact ih t1 t1' evs evs' u u' hrest hrest' hlen1 hagree1

lemma groupRows_not_me (samples : List Row) (d2 : ℚ) (j : ℕ) (r : Row)
    (hj : samples[j]? = some r) (hne : r.date ≠ d2) :
    ∀ q ∈ groupRows samples d2, q.1 ≠ j := by
  intro q hq he
  have h2 := groupRows_mem samples d2 q hq
  rw [he, hj] at h2
  have h3 : q.2 = r := by
    injection h2.1 with h4
    exact h4.symm
  rw [h3] at h2
  exact hne h2.2

lemma results_fst_ne (rows : List (ℕ × Row)) (j : ℕ)
    (hnot : ∀ q ∈ rows, q.1 ≠ j) (ds : Dataset) (vars2 : List String)
    (tol : ℚ) (res : List (ℕ × List (String × Option ℚ)))
    (hres : process_one_day ds rows vars2 tol = Except.ok res) :
    ∀ p ∈ res, p.1 ≠ j := by
  intro p hp he
  have h1 : p.1 ∈ res.map Prod.fst := List.mem_map_of_mem _ hp
  rw [process_one_day_fst _ _ _ _ _ hres] at h1
  rcases List.mem_map.mp h1 with ⟨q, hq, hqe⟩
  exact hnot q hq (hqe.trans he)

lemma processProduct_row_untouched (product : String) (d2 : ℚ)
    (rows : List (ℕ × Row)) (varNames : List String) (tol : ℚ)
    (rds : Option Dataset) (t : Table) (ev : List Event) (t2 : Table)
    (h : processProduct product d2 rows varNames tol rds t
      = (ev, Except.ok t2))
    (j : ℕ) (hnot : ∀ q ∈ rows, q.1 ≠ j) (c : String) :
    rowLookup t2 j c = rowLookup t j c := by
  rcases processProduct_ok_cases _ _ _ _ _ _ _ _ _ h with
    ⟨_, _, he⟩ | ⟨ds, res, _, hres, _, he⟩
  · rw [he]
  · rw [he]
    exact rowLookup_mergeProduct_other_row _ _ _ _ _ _
      (results_fst_ne rows j hnot ds _ tol res hres)

lemma optics_step_col_untouched (d2 : ℚ) (rows : List (ℕ × Row))
    (ov : List String) (tol : ℚ) (rds : Option Dataset) (t : Table)
    (ev : List Event) (t2 : Table)
    (h : processProduct "optics" d2 rows ov tol rds t = (ev, Except.ok t2))
    (c : String) (hc : ∀ v ∈ ov, rename_out "optics" v ≠ c) (j : ℕ) :
    rowLookup t2 j c = rowLookup t j c := by
  rcases processProduct_ok_cases _ _ _ _ _ _ _ _ _ h with
    ⟨_, _, he⟩ | ⟨ds, res, _, _, _, he⟩
  · rw [he]
  · rw [he]
    exact rowLookup_mergeProduct_other_col _ _ _ _ hc _ _

lemma runStep_row_untouched (pv ov : List String) (tol : ℚ)
    (samples : List Row) (fP : ℚ → Option Dataset)
    (fO : Option (ℚ → Option Dataset)) (d2 : ℚ) (t : Table)
    (ev : List Event) (t1 : Table) (j : ℕ) (r : Row)
    (hj : samples[j]? = some r) (hne : r.date ≠ d2)
    (h : runStep pv ov tol samples fP fO d2 t = (ev, Except.ok t1))
    (c : String) : rowLookup t1 j c = rowLookup t j c := by
  have hnot := groupRows_not_me samples d2 j r hj hne
  rcases runStep_ok_cases _ _ _ _ _ _ _ _ _ _ h with
    ⟨ev1, tp, h1, ⟨_, _, he⟩ | ⟨f, ev2, _, h2, _⟩⟩
  · rw [he]
    exact processProduct_row_untouched _ _ _ _ _ _ _ _ _ h1 j hnot c
  · rw [processProduct_row_untouched _ _ _ _ _ _ _ _ _ h2 j hnot c]
    exact processProduct_row_untouched _ _ _ _ _ _ _ _ _ h1 j hnot c

lemma runGroups_row_untouched (pv ov : List String) (tol : ℚ)
    (samples : List Row) (fP : ℚ → Option Dataset)
    (fO : Option (ℚ → Option Dataset)) (j : ℕ) (r : Row)
    (hj : samples[j]? = some r) :
    ∀ (dl : List ℚ), (∀ d2 ∈ dl, d2 ≠ r.date) →
      ∀ (t : Table) (ev : List Event) (u : Table),
        runGroups pv ov tol samples fP fO dl t = (ev, Except.ok u) →
        ∀ c, rowLookup u j c = rowLookup t j c := by
  intro dl
  induction dl with
  | nil =>
    intro _ t ev u h c
    simp only [runGroups] at h
    cases h
    rfl
  | cons d2 dl2 ih =>
    intro hmem t ev u h c
    rcases runGroups_cons_ok _ _ _ _ _ _ _ _ _ _ _ h with
      ⟨ev1, t1, evs, hs, hrest, _⟩
    rw [ih (fun d3 hd3 => hmem d3 (List.mem_cons_of_mem d2 hd3))
      t1 evs u hrest c]
    exact runStep_row_untouched pv ov tol samples fP fO d2 t ev1 t1 j r hj
      (fun he => hmem d2 (List.mem_cons_self d2 dl2) he.symm) hs c

lemma runGroups_pv_stays_none (pv ov : List String) (tol : ℚ)
    (samples : List Row) (fP : ℚ → Option Dataset)
    (fO : Option (ℚ → Option Dataset)) (d : ℚ) (hPd : fP d = none)
    (hdisj : ∀ v ∈ ov, rename_out "optics" v ∉ pv) :
    ∀ (dl : List ℚ) (t : Table) (ev : List Event) (u : Table),
      runGroups pv ov tol samples fP fO dl t = (ev, Except.ok u) →
      (t.length = samples.length ∧
        ∀ j r c, samples[j]? = some r → r.date = d → c ∈ pv →
          rowLookup t j c = some none) →
      (u.length = samples.length ∧
        ∀ j r c, samples[j]? = some r → r.date = d → c ∈ pv →
          rowLookup u j c = some none) := by
  intro dl t ev u h hP
  refine runGroups_preserve pv ov tol samples fP fO
    (fun t2 => t2.length = samples.length ∧
      ∀ j r c, samples[j]? = some r → r.date = d → c ∈ pv →
        rowLookup t2 j c = some none) ?_ dl t ev u h hP
  intro d2 t0 t1 ev0 hstep ⟨hlen0, hbase⟩
  constructor
  · rw [runStep_ok_length _ _ _ _ _ _ _ _ _ _ hstep, hlen0]
  · intro j r c hj hdate hc
    rcases runStep_ok_cases _ _ _ _ _ _ _ _ _ _ hstep with
      ⟨evp, tp, hp, hbr⟩
    have hplank : rowLookup tp j c = some none := by
      by_cases hd2 : d2 = d
      · subst hd2
        rcases processProduct_ok_cases _ _ _ _ _ _ _ _ _ hp with
          ⟨_, _, he⟩ | ⟨ds, res, hsome, _, _, _⟩
        · rw [he]
          exact hbase j r c hj hdate hc
        · rw [hPd] at hsome
          cases hsome
      · rw [processProduct_row_untouched _ _ _ _ _ _ _ _ _ hp j
          (groupRows_not_me samples d2 j r hj
            (by rw [hdate]; exact fun he => hd2 he.symm)) c]
        exact hbase j r c hj hdate hc
    have hcol : ∀ v ∈ ov, rename_out "optics" v ≠ c := by
      intro v hvv he
      exact hdisj v hvv (he ▸ hc)
    rcases hbr with ⟨_, _, he⟩ | ⟨f, ev2, _, h2, _⟩
    · rw [he]
      exact hplank
    · rw [optics_step_col_untouched _ _ _ _ _ _ _ _ h2 c hcol j]
      exact hplank

lemma runGroups_optics_value (pv ov : List String) (tol : ℚ)
    (samples : List Row) (fP : ℚ → Option Dataset)
    (f : ℚ → Option Dataset) (d : ℚ) (ds0 : Dataset)
    (hfd : f d = some ds0) (res : List (ℕ × List (String × Option ℚ)))
    (hres : process_one_day ds0 (groupRows samples d)
        (ov.filter (fun v2 => dsHasVar ds0 v2)) tol = Except.ok res)
    (v : String) (hv : v ∈ ov)
    (hinj : ∀ w ∈ ov, rename_out "optics" w = rename_out "optics" v → w = v)
    (j : ℕ) (r : Row) (hj : samples[j]? = some r) (hdate : r.date = d)
    (vals : List (String × Option ℚ)) (hvals : (j, vals) ∈ res) :
    ∀ (dl : List ℚ), dl.Nodup → d ∈ dl →
      ∀ (t : Table) (ev : List Event) (u : Table),
        t.length = samples.length →
        runGroups pv ov tol samples fP (some f) dl t = (ev, Except.ok u) →
        rowLookup u j (rename_out "optics" v)
          = some ((vals.lookup v).getD none) := by
  intro dl
  induction dl with
  | nil => intro _ hd; cases hd
  | cons d1 dl2 ih =>
    intro hnodup hd t ev u hlen h
    rcases runGroups_cons_ok _ _ _ _ _ _ _ _ _ _ _ h with
      ⟨ev1, t1, evs, hs, hrest, _⟩
    rw [List.nodup_cons] at hnodup
    by_cases hd1 : d1 = d
    · subst hd1
      rcases runStep_ok_cases _ _ _ _ _ _ _ _ _ _ hs with
        ⟨evp, tp, hp, ⟨hno, _, _⟩ | ⟨f2, ev2, hf2, ho, _⟩⟩
      · cases hno
      · have hf2e : f2 = f := by
          injection hf2 with he
          exact he.symm
        rw [hf2e] at ho
        rcases processProduct_ok_cases _ _ _ _ _ _ _ _ _ ho with
          ⟨hnone, _, _⟩ | ⟨ds, res2, hsome, hres2, _, he⟩
        · rw [hfd] at hnone
          cases hnone
        · have hds : ds = ds0 := by
            rw [hfd] at hsome
            injection hsome with he2
            exact he2.symm
          rw [hds] at hres2
          rw [hres] at hres2
          have hresx : res2 = res := by
            injection hres2 with he2
            exact he2.symm
          rw [hresx] at he
          have hrowse : ∀ d2 ∈ dl2, d2 ≠ r.date := by
            intro d2 hd2 he2
            rw [hdate] at he2
            exact hnodup.1 (he2 ▸ hd2)
          rw [runGroups_row_untouched pv ov tol samples fP (some f) j r hj
            dl2 hrowse t1 evs u hrest (rename_out "optics" v)]
          rw [he]
          apply rowLookup_mergeProduct_hit ov (rename_out "optics") v hv hinj
            res tp j vals hvals
          · rw [process_one_day_fst _ _ _ _ _ hres]
            exact groupRows_fst_nodup samples d1
          · rw [processProduct_ok_length _ _ _ _ _ _ _ _ _ hp, hlen]
            exact (List.getElem?_eq_some.mp hj).1
    · have hd2 : d ∈ dl2 := by
        rcases List.mem_cons.mp hd with he | hm
        · cases hd1 he.symm
        · exact hm
      exact ih hnodup.2 hd2 t1 evs u
        (by rw [runStep_ok_length _ _ _ _ _ _ _ _ _ _ hs, hlen]) hrest

/-- C9: the two products are fully independent and namespaced — (i) the
optics `flags` variable is written to `flags_optics` while the plankton
`flags` keeps its raw name; (ii) changing the plankton resolution in
any way (file missing, unopenable, different data) never changes any
column outside the plankton list, in particular no optics output
column; (iii) on a day whose plankton product is unavailable, every
sample of that day holds the no-data marker in every plankton column;
(iv) on a day whose optics product resolves, every sample of that day
holds exactly the optics-extracted values (value or no-data) in the
renamed optics columns. -/
theorem product_independence (pv ov : List String) (tol : ℚ)
    (samples : List Row) (fP fP2 f : ℚ → Option Dataset) (t t2 : Table)
    (hdisj : ∀ v ∈ ov, rename_out "optics" v ∉ pv)
    (hinj : ∀ v ∈ ov, ∀ w ∈ ov,
      rename_out "optics" w = rename_out "optics" v → w = v)
    (h : (runMain pv ov tol samples fP (some f)).2 = Except.ok t)
    (h2 : (runMain pv ov tol samples fP2 (some f)).2 = Except.ok t2) :
    (rename_out "optics" "flags" = "flags_optics" ∧
      rename_out "plankton" "flags" = "flags") ∧
      (∀ j c, c ∉ pv → rowLookup t j c = rowLookup t2 j c) ∧
      (∀ d, fP d = none → ∀ j r, samples[j]? = some r → r.date = d →
        ∀ v ∈ pv, rowLookup t j v = some none) ∧
      (∀ d ds0, f d = some ds0 →
        ∀ res, process_one_day ds0 (groupRows samples d)
            (ov.filter (fun v2 => dsHasVar ds0 v2)) tol = Except.ok res →
        ∀ j r, samples[j]? = some r → r.date = d →
        ∀ vals, (j, vals) ∈ res → ∀ v ∈ ov,
          rowLookup t j (rename_out "optics" v)
            = some ((vals.lookup v).getD none)) := by
  unfold runMain at h h2
  rcases hr : runGroups pv ov tol samples fP (some f) (sortedDates samples)
      (samples.map (fun _ => initRow pv ov)) with ⟨ev, res1⟩
  rw [hr] at h
  simp only at h
  rw [h] at hr
  rcases hr2 : runGroups pv ov tol samples fP2 (some f) (sortedDates samples)
      (samples.map (fun _ => initRow pv ov)) with ⟨ev2, res2⟩
  rw [hr2] at h2
  simp only at h2
  rw [h2] at hr2
  refine ⟨⟨by decide, rename_plankton_id "flags"⟩, ?_, ?_, ?_⟩
  · exact (runGroups_parallel pv ov tol samples fP fP2 f
      (sortedDates samples) _ _ ev ev2 t t2 hr hr2 rfl
      (fun j c hc => rfl)).2
  · intro d hPd j r hj hdate v hv
    have hinit : (samples.map (fun _ => initRow pv ov)).length
          = samples.length ∧
        ∀ j2 r2 c, samples[j2]? = some r2 → r2.date = d → c ∈ pv →
          rowLookup (samples.map (fun _ => initRow pv ov)) j2 c
            = some none := by
      constructor
      · simp
      · intro j2 r2 c hj2 hdate2 hc
        rw [table0_rowLookup pv ov samples j2
          (List.getElem?_eq_some.mp hj2).1 c]
        exact initRow_lookup_eq pv ov c (Or.inl hc)
    exact (runGroups_pv_stays_none pv ov tol samples fP (some f) d hPd hdisj
      (sortedDates samples) _ ev t hr hinit).2 j r v hj hdate hv
  · intro d ds0 hfd res hres j r hj hdate vals hvals v hv
    have hnodup : (sortedDates samples).Nodup := by
      unfold sortedDates
      exact ((List.perm_insertionSort _ _).nodup_iff).mpr
        (List.nodup_dedup _)
    have hmem : d ∈ sortedDates samples := by
      unfold sortedDates
      rw [(List.perm_insertionSort _ _).mem_iff, List.mem_dedup, ← hdate]
      exact List.mem_map_of_mem Row.date (List.getElem?_mem hj)
    exact runGroups_optics_value pv ov tol samples fP f d ds0 hfd res hres
      v hv (fun w hw he => hinj v hv w hw he) j r hj hdate vals hvals
      (sortedDates samples) hnodup hmem _ ev t (by simp) hr

/-- Witness for `product_independence`, at the script's shipped default
variable lists (whose namespace rule is collision-free): on a one-sample
run with the plankton product unavailable, the `CHL` column holds the
no-data marker, and the rename rule routes the optics flags away from
the plankton flags column. -/
theorem product_independence_witness :
    (rename_out "optics" "flags" = "flags_optics" ∧
      rename_out "plankton" "flags" = "flags") ∧
      rowLookup
        (match (runMain DEFAULT_PLANKTON_VARS DEFAULT_OPTICS_VARS (1/20)
            [⟨0, 0, 0⟩] (fun _ => none) (some (fun _ => none))).2 with
          | Except.ok t => t
          | Except.error _ => []) 0 "CHL" = some none := by
  have hmain := product_independence DEFAULT_PLANKTON_VARS
    DEFAULT_OPTICS_VARS (1/20) [⟨0, 0, 0⟩]
    (fun _ => none) (fun _ => none) (fun _ => none)
    (match (runMain DEFAULT_PLANKTON_VARS DEFAULT_OPTICS_VARS (1/20)
        [⟨0, 0, 0⟩] (fun _ => none) (some (fun _ => none))).2 with
      | Except.ok t => t
      | Except.error _ => [])
    (match (runMain DEFAULT_PLANKTON_VARS DEFAULT_OPTICS_VARS (1/20)
        [⟨0, 0, 0⟩] (fun _ => none) (some (fun _ => none))).2 with
      | Except.ok t => t
      | Except.error _ => [])
    (by decide) (by decide) (by rfl) (by rfl)
  exact ⟨hmain.1,
    hmain.2.2.1 0 rfl 0 ⟨0, 0, 0⟩ rfl rfl "CHL" (by decide)⟩
